import Mathlib

/-!
Shallow embedding of the on-chain prediction-market contract
(`contracts/prediction-market/src/PredictionMarket.ts`) and proofs of the
specification's claims about it.

Machine integers: the contract's `u256` values are modelled as `Nat` together
with the overflow-checked `SafeMath` operations, which revert (return `none`)
instead of wrapping.  Storage maps are modelled as total functions from the
30-byte sub-pointer (a `List Nat` of byte values) derived from the market id,
mirroring the contract's `toSubPointer`; per-user maps take the user's address
(a `Nat`, the big-endian integer value of the 32-byte address) as a second key.
Entry points are functions `State → args → Option (State × Nat)`; `none` is a
revert, and a reverted call leaves the state unchanged (`step`).
-/

namespace PredictionMarket

/-- The number of distinct u256 values; arithmetic reverts at or above this. -/
def U256LIMIT : Nat := 2 ^ 256

/-- `SafeMath.add`: overflow-checked u256 addition; reverts on overflow. -/
def safeAdd (a b : Nat) : Option Nat :=
  if a + b < U256LIMIT then some (a + b) else none

/-- `SafeMath.mul`: overflow-checked u256 multiplication. -/
def safeMul (a b : Nat) : Option Nat :=
  if a * b < U256LIMIT then some (a * b) else none

/-- `SafeMath.div`: u256 floor division; reverts on division by zero. -/
def safeDiv (a b : Nat) : Option Nat :=
  if b = 0 then none else some (a / b)

/-- `OUTCOME_YES = u256.One`. -/
def OUTCOME_YES : Nat := 1

/-- `OUTCOME_NO = u256.fromU32(2)`. -/
def OUTCOME_NO : Nat := 2

/-- `STATUS_OPEN = u256.One`. -/
def STATUS_OPEN : Nat := 1

/-- `STATUS_RESOLVED = u256.fromU32(2)`. -/
def STATUS_RESOLVED : Nat := 2

/-- `MAX_MARKETS = u256.fromU32(10000)`. -/
def MAX_MARKETS : Nat := 10000

/-- Byte `i` (0-indexed from the most significant end) of the 32-byte
big-endian encoding of a u256 value. -/
def beByte (v : Nat) (i : Nat) : Nat := v / 2 ^ (8 * (31 - i)) % 256

/-- `toSubPointer`: the contract copies bytes 2..31 of the 32-byte big-endian
encoding of the market id into a 30-byte sub-pointer (`sub[i] = full[i + 2]`
for `i = 0..29`). -/
def toSubPointer (marketId : Nat) : List Nat :=
  (List.range 30).map (fun i => beByte marketId (i + 2))

/-- Contract storage.  Each per-market base pointer of the source becomes one
field keyed by the 30-byte sub-pointer; each per-(market, user) region takes
the user address as a second key. -/
structure State where
  marketCount : Nat
  ownerAddress : Nat
  creator : List Nat → Nat
  endBlock : List Nat → Nat
  oracle : List Nat → Nat
  status : List Nat → Nat
  outcome : List Nat → Nat
  yesPool : List Nat → Nat
  noPool : List Nat → Nat
  yesBets : List Nat → Nat → Nat
  noBets : List Nat → Nat → Nat
  claimed : List Nat → Nat → Nat

/-- Point update of a per-market storage region. -/
def upd (f : List Nat → Nat) (k : List Nat) (v : Nat) : List Nat → Nat :=
  fun k' => if k' = k then v else f k'

/-- Point update of a per-(market, user) storage region. -/
def upd2 (f : List Nat → Nat → Nat) (k : List Nat) (u v : Nat) :
    List Nat → Nat → Nat :=
  fun k' u' => if k' = k then (if u' = u then v else f k' u') else f k' u'

/-- `createMarket`: validates the deadline, the question and the capacity cap,
then assigns id `count + 1`, initializes the market's slots and increments the
counter.  `questionLen` is the length of the decoded question string. -/
def createMarket (s : State) (blockNumber sender questionLen endBlk oracleArg : Nat) :
    Option (State × Nat) :=
  if endBlk ≤ blockNumber then none
  else if questionLen = 0 then none
  else if MAX_MARKETS ≤ s.marketCount then none
  else
    match safeAdd s.marketCount 1 with
    | none => none
    | some marketId =>
      some ({ s with
          marketCount := marketId,
          creator := upd s.creator (toSubPointer marketId) sender,
          endBlock := upd s.endBlock (toSubPointer marketId) endBlk,
          oracle := upd s.oracle (toSubPointer marketId) oracleArg,
          status := upd s.status (toSubPointer marketId) STATUS_OPEN,
          outcome := upd s.outcome (toSubPointer marketId) 0,
          yesPool := upd s.yesPool (toSubPointer marketId) 0,
          noPool := upd s.noPool (toSubPointer marketId) 0 }, marketId)

/-- `placeBet`: validates the outcome code, the OPEN status, the betting
deadline (`block.number >= endBlock` reverts) and a nonzero amount, then adds
`amount` to the chosen pool and to the caller's matching bet accumulator with
overflow-checked additions.  Returns `1` (the encoded `true`). -/
def placeBet (s : State) (blockNumber sender marketId oc amount : Nat) :
    Option (State × Nat) :=
  if ¬(oc = OUTCOME_YES ∨ oc = OUTCOME_NO) then none
  else if ¬(s.status (toSubPointer marketId) = STATUS_OPEN) then none
  else if s.endBlock (toSubPointer marketId) ≤ blockNumber then none
  else if amount = 0 then none
  else if oc = OUTCOME_YES then
    match safeAdd (s.yesPool (toSubPointer marketId)) amount,
        safeAdd (s.yesBets (toSubPointer marketId) sender) amount with
    | some p, some b =>
        some ({ s with yesPool := upd s.yesPool (toSubPointer marketId) p,
                       yesBets := upd2 s.yesBets (toSubPointer marketId) sender b }, 1)
    | _, _ => none
  else
    match safeAdd (s.noPool (toSubPointer marketId)) amount,
        safeAdd (s.noBets (toSubPointer marketId) sender) amount with
    | some p, some b =>
        some ({ s with noPool := upd s.noPool (toSubPointer marketId) p,
                       noBets := upd2 s.noBets (toSubPointer marketId) sender b }, 1)
    | _, _ => none

/-- `resolveMarket`: validates the outcome code, the OPEN status, that the
caller is the recorded oracle, and that the deadline has passed
(`block.number < endBlock` reverts), then sets status to RESOLVED and records
the outcome. -/
def resolveMarket (s : State) (blockNumber sender marketId oc : Nat) :
    Option (State × Nat) :=
  if ¬(oc = OUTCOME_YES ∨ oc = OUTCOME_NO) then none
  else if ¬(s.status (toSubPointer marketId) = STATUS_OPEN) then none
  else if ¬(sender = s.oracle (toSubPointer marketId)) then none
  else if blockNumber < s.endBlock (toSubPointer marketId) then none
  else
    some ({ s with status := upd s.status (toSubPointer marketId) STATUS_RESOLVED,
                   outcome := upd s.outcome (toSubPointer marketId) oc }, 1)

/-- The source's `winningPool` local in `claimWinnings`: the pool of the side
selected by the market's recorded outcome (`yesPool` when the outcome equals
`OUTCOME_YES`, else `noPool`). -/
def winPool (s : State) (k : List Nat) : Nat :=
  if s.outcome k = OUTCOME_YES then s.yesPool k else s.noPool k

/-- The source's `losingPool` local in `claimWinnings`: the pool of the other
side. -/
def losePool (s : State) (k : List Nat) : Nat :=
  if s.outcome k = OUTCOME_YES then s.noPool k else s.yesPool k

/-- The source's `userBet` local in `claimWinnings`: the user's accumulated
bet on the side selected by the market's recorded outcome. -/
def winStake (s : State) (k : List Nat) (u : Nat) : Nat :=
  if s.outcome k = OUTCOME_YES then s.yesBets k u else s.noBets k u

/-- `claimWinnings`: requires a RESOLVED market, an unset claimed flag, and a
nonzero stake on the winning side; computes
`payout = userBet * (winningPool + losingPool) / winningPool` with
overflow-checked arithmetic, sets the claimed flag and returns the payout. -/
def claimWinnings (s : State) (sender marketId : Nat) : Option (State × Nat) :=
  if ¬(s.status (toSubPointer marketId) = STATUS_RESOLVED) then none
  else if ¬(s.claimed (toSubPointer marketId) sender = 0) then none
  else if winStake s (toSubPointer marketId) sender = 0 then none
  else
    match safeAdd (winPool s (toSubPointer marketId))
        (losePool s (toSubPointer marketId)) with
    | none => none
    | some totalPool =>
      match safeMul (winStake s (toSubPointer marketId) sender) totalPool with
      | none => none
      | some prod =>
        match safeDiv prod (winPool s (toSubPointer marketId)) with
        | none => none
        | some payout =>
          some ({ s with
            claimed := upd2 s.claimed (toSubPointer marketId) sender 1 }, payout)

/-- The payout returned by a `claimWinnings` call (`none` on revert). -/
def claimAmount (s : State) (sender marketId : Nat) : Option Nat :=
  (claimWinnings s sender marketId).map (fun r => r.2)

/-- A state-mutating transaction: one entry-point invocation together with its
environment (current block number and transaction sender). -/
inductive Tx where
  | create (blockNumber sender questionLen endBlk oracleArg : Nat)
  | bet (blockNumber sender marketId oc amount : Nat)
  | resolve (blockNumber sender marketId oc : Nat)
  | claim (sender marketId : Nat)

/-- Apply one transaction; `none` is a revert. -/
def applyTx (s : State) : Tx → Option (State × Nat)
  | Tx.create b snd q e o => createMarket s b snd q e o
  | Tx.bet b snd m oc a => placeBet s b snd m oc a
  | Tx.resolve b snd m oc => resolveMarket s b snd m oc
  | Tx.claim snd m => claimWinnings s snd m

/-- The transaction's sender. -/
def txSender : Tx → Nat
  | Tx.create _ snd _ _ _ => snd
  | Tx.bet _ snd _ _ _ => snd
  | Tx.resolve _ snd _ _ => snd
  | Tx.claim snd _ => snd

/-- Transactional semantics: a successful call commits its new state, a
reverted call leaves the state unchanged. -/
def step (s : State) (t : Tx) : State :=
  match applyTx s t with
  | some (s', _) => s'
  | none => s

/-- Run a list of transactions in order. -/
def run (s : State) (txs : List Tx) : State := txs.foldl step s

/-- The state right after deployment: `onDeployment` records the deployer as
owner; every other slot holds the zero default. -/
def initState (deployer : Nat) : State :=
  { marketCount := 0
    ownerAddress := deployer
    creator := fun _ => 0
    endBlock := fun _ => 0
    oracle := fun _ => 0
    status := fun _ => 0
    outcome := fun _ => 0
    yesPool := fun _ => 0
    noPool := fun _ => 0
    yesBets := fun _ _ => 0
    noBets := fun _ _ => 0
    claimed := fun _ _ => 0 }

/-- A state is reachable if some transaction sequence from deployment
produces it. -/
def Reachable (s : State) : Prop :=
  ∃ deployer txs, run (initState deployer) txs = s

/-- The payout of a transaction when it is a successful `claimWinnings` whose
market id resolves to sub-pointer `k`; `0` otherwise. -/
def claimPayout (s : State) (t : Tx) (k : List Nat) : Nat :=
  match t with
  | Tx.claim snd m =>
    if toSubPointer m = k then
      match claimWinnings s snd m with
      | some (_, p) => p
      | none => 0
    else 0
  | _ => 0

/-- Sum of the payouts of all successful `claimWinnings` calls for market
sub-pointer `k` along a transaction sequence starting at `s`. -/
def totalPaid (s : State) (txs : List Tx) (k : List Nat) : Nat :=
  match txs with
  | [] => 0
  | t :: rest => claimPayout s t k + totalPaid (step s t) rest k

/-- A sample deployment trace (the spec's Scenario 1): market 1 is created at
block 1 with deadline block 2 and oracle address 7; user 8 bets 3000 on YES,
user 6 bets 1000 on NO; the oracle resolves YES at block 2. -/
def sampleTxs : List Tx :=
  [Tx.create 1 9 1 2 7, Tx.bet 1 8 1 1 3000, Tx.bet 1 6 1 2 1000,
   Tx.resolve 2 7 1 1]

/-- The state after running `sampleTxs` from deployment. -/
def sampleState : State := run (initState 0) sampleTxs

/-- Recover a small market id from the last two bytes of its sub-pointer. -/
def subLast2 (l : List Nat) : Nat := l.getD 28 0 * 256 + l.getD 29 0

lemma toSubPointer_eq_list (v : Nat) :
    toSubPointer v = [beByte v 2, beByte v 3, beByte v 4, beByte v 5,
      beByte v 6, beByte v 7, beByte v 8, beByte v 9, beByte v 10,
      beByte v 11, beByte v 12, beByte v 13, beByte v 14, beByte v 15,
      beByte v 16, beByte v 17, beByte v 18, beByte v 19, beByte v 20,
      beByte v 21, beByte v 22, beByte v 23, beByte v 24, beByte v 25,
      beByte v 26, beByte v 27, beByte v 28, beByte v 29, beByte v 30,
      beByte v 31] := by
  rfl

lemma subLast2_toSubPointer (v : Nat) (hv : v < 65536) :
    subLast2 (toSubPointer v) = v := by
  rw [toSubPointer_eq_list]
  simp only [subLast2, List.getD]
  norm_num [beByte]
  omega

lemma toSubPointer_inj {a b : Nat} (ha : a < 65536) (hb : b < 65536)
    (h : toSubPointer a = toSubPointer b) : a = b := by
  have h1 := subLast2_toSubPointer a ha
  have h2 := subLast2_toSubPointer b hb
  rw [h] at h1
  omega

/-- Claim C9: the storage sub-key derivation (taking the low-order 30 bytes of
the market id's 32-byte big-endian encoding) is injective on all market ids
that can ever be assigned: for any two distinct ids from 1 up to
`MAX_MARKETS = 10000`, the derived 30-byte sub-pointers differ, so no two
created markets ever share a storage slot. -/
theorem toSubPointer_injective_on_ids (a b : Nat)
    (ha1 : 1 ≤ a) (ha2 : a ≤ MAX_MARKETS)
    (hb1 : 1 ≤ b) (hb2 : b ≤ MAX_MARKETS)
    (hne : a ≠ b) : toSubPointer a ≠ toSubPointer b := by
  intro hEq
  have hM : MAX_MARKETS = 10000 := rfl
  exact hne (toSubPointer_inj (by omega) (by omega) hEq)

/-- Witness for C9 at ids 1 and 2. -/
theorem toSubPointer_injective_on_ids_witness :
    toSubPointer 1 ≠ toSubPointer 2 :=
  toSubPointer_injective_on_ids 1 2 (by decide) (by norm_num [MAX_MARKETS])
    (by decide) (by norm_num [MAX_MARKETS]) (by decide)

/-- Claim C1: every successful `claimWinnings` call returns a payout equal to
`floor(userStake * (winningPool + losingPool) / winningPool)`, where
`userStake` is the claimant's accumulated bet on the winning side (`yesBet`
if the outcome is YES, else `noBet`), `winningPool` is the pool of the winning
side and `losingPool` the pool of the losing side. -/
theorem claimWinnings_payout_formula (s : State) (sender marketId p : Nat)
    (h : claimAmount s sender marketId = some p) :
    p = winStake s (toSubPointer marketId) sender *
          (winPool s (toSubPointer marketId) + losePool s (toSubPointer marketId)) /
          winPool s (toSubPointer marketId) := by
  unfold claimAmount at h
  rcases hcw : claimWinnings s sender marketId with _ | ⟨s', q⟩
  · rw [hcw] at h; cases h
  · rw [hcw] at h
    simp only [Option.map_some'] at h
    injection h with h
    subst h
    unfold claimWinnings at hcw
    split at hcw
    · cases hcw
    split at hcw
    · cases hcw
    split at hcw
    · cases hcw
    split at hcw
    · cases hcw
    next tp h1 =>
      split at hcw
      · cases hcw
      next pr h2 =>
        split at hcw
        · cases hcw
        next po h3 =>
          injection hcw with hcw
          have hq := congrArg Prod.snd hcw
          simp only at hq
          have e1 : tp = winPool s (toSubPointer marketId) +
              losePool s (toSubPointer marketId) := by
            simp only [safeAdd] at h1
            split at h1
            · injection h1 with h1; exact h1.symm
            · cases h1
          have e2 : pr = winStake s (toSubPointer marketId) sender * tp := by
            simp only [safeMul] at h2
            split at h2
            · injection h2 with h2; exact h2.symm
            · cases h2
          have e3 : po = pr / winPool s (toSubPointer marketId) := by
            simp only [safeDiv] at h3
            split at h3
            · cases h3
            · injection h3 with h3; exact h3.symm
          rw [← hq, e3, e2, e1]

/-- Witness for C1: in the Scenario-1 state, the YES bettor's claim returns
4000 = floor(3000 * 4000 / 3000). -/
theorem claimWinnings_payout_formula_witness :
    claimAmount sampleState 8 1 = some 4000 ∧
    4000 = winStake sampleState (toSubPointer 1) 8 *
        (winPool sampleState (toSubPointer 1) + losePool sampleState (toSubPointer 1)) /
        winPool sampleState (toSubPointer 1) :=
  ⟨by decide, claimWinnings_payout_formula sampleState 8 1 4000 (by decide)⟩

lemma count_succ_lt_limit {c : Nat} (h : c < 10000) : c + 1 < U256LIMIT := by
  have : (10001 : Nat) ≤ U256LIMIT := by norm_num [U256LIMIT]
  omega

/-- Claim C8: `createMarket` reverts with no state change (in particular the
market counter is unchanged) whenever `endBlock <= current block height`, or
the question is empty, or the market count is at least 10000; on success it
returns `marketId = previous count + 1`, increments the counter by exactly 1,
and initializes the new market with creator = caller, the given endBlock and
oracle, status OPEN, outcome NONE and zero pools. -/
theorem createMarket_spec (s : State) (b snd q e o : Nat) :
    (createMarket s b snd q e o = none ↔
      e ≤ b ∨ q = 0 ∨ MAX_MARKETS ≤ s.marketCount)
    ∧ (createMarket s b snd q e o = none → step s (Tx.create b snd q e o) = s)
    ∧ (∀ r, (createMarket s b snd q e o).map (fun x => x.2) = some r →
        r = s.marketCount + 1
        ∧ (step s (Tx.create b snd q e o)).marketCount = s.marketCount + 1
        ∧ (step s (Tx.create b snd q e o)).creator (toSubPointer r) = snd
        ∧ (step s (Tx.create b snd q e o)).endBlock (toSubPointer r) = e
        ∧ (step s (Tx.create b snd q e o)).oracle (toSubPointer r) = o
        ∧ (step s (Tx.create b snd q e o)).status (toSubPointer r) = STATUS_OPEN
        ∧ (step s (Tx.create b snd q e o)).outcome (toSubPointer r) = 0
        ∧ (step s (Tx.create b snd q e o)).yesPool (toSubPointer r) = 0
        ∧ (step s (Tx.create b snd q e o)).noPool (toSubPointer r) = 0) := by
  by_cases h1 : e ≤ b
  · simp [createMarket, h1, step, applyTx]
  by_cases h2 : q = 0
  · simp [createMarket, h1, h2, step, applyTx]
  by_cases h3 : MAX_MARKETS ≤ s.marketCount
  · simp [createMarket, h1, h2, h3, step, applyTx]
  · have hlt : s.marketCount < 10000 := by
      have : MAX_MARKETS = 10000 := rfl
      omega
    have hadd : s.marketCount + 1 < U256LIMIT := count_succ_lt_limit hlt
    simp [createMarket, h1, h2, h3, step, applyTx, safeAdd, hadd, upd]

/-- Witness for C8: creating a first market at block 5 with deadline 6. -/
theorem createMarket_spec_witness :
    (1 : Nat) = (initState 0).marketCount + 1
    ∧ (step (initState 0) (Tx.create 5 9 3 6 7)).marketCount =
        (initState 0).marketCount + 1
    ∧ (step (initState 0) (Tx.create 5 9 3 6 7)).creator (toSubPointer 1) = 9
    ∧ (step (initState 0) (Tx.create 5 9 3 6 7)).endBlock (toSubPointer 1) = 6
    ∧ (step (initState 0) (Tx.create 5 9 3 6 7)).oracle (toSubPointer 1) = 7
    ∧ (step (initState 0) (Tx.create 5 9 3 6 7)).status (toSubPointer 1) =
        STATUS_OPEN
    ∧ (step (initState 0) (Tx.create 5 9 3 6 7)).outcome (toSubPointer 1) = 0
    ∧ (step (initState 0) (Tx.create 5 9 3 6 7)).yesPool (toSubPointer 1) = 0
    ∧ (step (initState 0) (Tx.create 5 9 3 6 7)).noPool (toSubPointer 1) = 0 :=
  (createMarket_spec (initState 0) 5 9 3 6 7).2.2 1 (by decide)

lemma step_of_some {s : State} {t : Tx} {s' : State} {r : Nat}
    (h : applyTx s t = some (s', r)) : step s t = s' := by
  simp [step, h]

lemma step_of_none {s : State} {t : Tx} (h : applyTx s t = none) :
    step s t = s := by
  simp [step, h]

lemma createMarket_some {s : State} {b snd q e o : Nat} {s' : State} {r : Nat}
    (h : createMarket s b snd q e o = some (s', r)) :
    b < e ∧ q ≠ 0 ∧ s.marketCount < MAX_MARKETS ∧ r = s.marketCount + 1 ∧
    s' = { s with
        marketCount := s.marketCount + 1,
        creator := upd s.creator (toSubPointer (s.marketCount + 1)) snd,
        endBlock := upd s.endBlock (toSubPointer (s.marketCount + 1)) e,
        oracle := upd s.oracle (toSubPointer (s.marketCount + 1)) o,
        status := upd s.status (toSubPointer (s.marketCount + 1)) STATUS_OPEN,
        outcome := upd s.outcome (toSubPointer (s.marketCount + 1)) 0,
        yesPool := upd s.yesPool (toSubPointer (s.marketCount + 1)) 0,
        noPool := upd s.noPool (toSubPointer (s.marketCount + 1)) 0 } := by
  unfold createMarket at h
  split at h
  · cases h
  split at h
  · cases h
  split at h
  · cases h
  next h1 h2 h3 =>
    have hadd : s.marketCount + 1 < U256LIMIT := by
      have hM : MAX_MARKETS = 10000 := rfl
      have : (10001 : Nat) ≤ U256LIMIT := by norm_num [U256LIMIT]
      omega
    rw [show safeAdd s.marketCount 1 = some (s.marketCount + 1) by
      simp [safeAdd, hadd]] at h
    injection h with h
    have hr := congrArg Prod.snd h
    have hs := congrArg Prod.fst h
    simp only at hr hs
    refine ⟨by omega, h2, by omega, hr.symm, hs.symm⟩

lemma placeBet_some {s : State} {b snd m oc a : Nat} {s' : State} {r : Nat}
    (h : placeBet s b snd m oc a = some (s', r)) :
    (oc = OUTCOME_YES ∨ oc = OUTCOME_NO) ∧
    s.status (toSubPointer m) = STATUS_OPEN ∧
    b < s.endBlock (toSubPointer m) ∧ a ≠ 0 ∧
    ((oc = OUTCOME_YES ∧
        s.yesPool (toSubPointer m) + a < U256LIMIT ∧
        s.yesBets (toSubPointer m) snd + a < U256LIMIT ∧
        s' = { s with
          yesPool := upd s.yesPool (toSubPointer m)
            (s.yesPool (toSubPointer m) + a),
          yesBets := upd2 s.yesBets (toSubPointer m) snd
            (s.yesBets (toSubPointer m) snd + a) }) ∨
     (oc = OUTCOME_NO ∧
        s.noPool (toSubPointer m) + a < U256LIMIT ∧
        s.noBets (toSubPointer m) snd + a < U256LIMIT ∧
        s' = { s with
          noPool := upd s.noPool (toSubPointer m)
            (s.noPool (toSubPointer m) + a),
          noBets := upd2 s.noBets (toSubPointer m) snd
            (s.noBets (toSubPointer m) snd + a) })) := by
  unfold placeBet at h
  split at h
  · cases h
  next h0 =>
  split at h
  · cases h
  next h1 =>
  split at h
  · cases h
  next h2 =>
  split at h
  · cases h
  next h3 =>
  rw [not_not] at h1
  push_neg at h0
  split at h
  next h4 =>
    -- oc = OUTCOME_YES branch
    split at h
    next p bb hp1 hp2 =>
      injection h with h
      have hs := congrArg Prod.fst h
      simp only at hs
      simp only [safeAdd] at hp1 hp2
      split at hp1
      case _ hov1 =>
        split at hp2
        case _ hov2 =>
          injection hp1 with hp1
          injection hp2 with hp2
          exact ⟨Or.inl h4, h1, by omega, h3, Or.inl ⟨h4, hov1, hov2,
            by rw [← hs, ← hp1, ← hp2]⟩⟩
        case _ => cases hp2
      case _ => cases hp1
    · cases h
  next h4 =>
    split at h
    next p bb hp1 hp2 =>
      injection h with h
      have hs := congrArg Prod.fst h
      simp only at hs
      simp only [safeAdd] at hp1 hp2
      split at hp1
      case _ hov1 =>
        split at hp2
        case _ hov2 =>
          injection hp1 with hp1
          injection hp2 with hp2
          have hoc : oc = OUTCOME_NO := by
            rcases h0 with hoc | hoc
            · exact absurd hoc h4
            · exact hoc
          exact ⟨Or.inr hoc, h1, by omega, h3, Or.inr ⟨hoc, hov1, hov2,
            by rw [← hs, ← hp1, ← hp2]⟩⟩
        case _ => cases hp2
      case _ => cases hp1
    · cases h

lemma resolveMarket_some {s : State} {b snd m oc : Nat} {s' : State} {r : Nat}
    (h : resolveMarket s b snd m oc = some (s', r)) :
    (oc = OUTCOME_YES ∨ oc = OUTCOME_NO) ∧
    s.status (toSubPointer m) = STATUS_OPEN ∧
    snd = s.oracle (toSubPointer m) ∧
    s.endBlock (toSubPointer m) ≤ b ∧
    s' = { s with
        status := upd s.status (toSubPointer m) STATUS_RESOLVED,
        outcome := upd s.outcome (toSubPointer m) oc } := by
  unfold resolveMarket at h
  split at h
  · cases h
  next h0 =>
  split at h
  · cases h
  next h1 =>
  split at h
  · cases h
  next h2 =>
  split at h
  · cases h
  next h3 =>
  push_neg at h0
  rw [not_not] at h1 h2
  injection h with h
  have hs := congrArg Prod.fst h
  simp only at hs
  exact ⟨h0, h1, h2, by omega, hs.symm⟩

lemma claimWinnings_some {s : State} {snd m : Nat} {s' : State} {r : Nat}
    (h : claimWinnings s snd m = some (s', r)) :
    s.status (toSubPointer m) = STATUS_RESOLVED ∧
    s.claimed (toSubPointer m) snd = 0 ∧
    winStake s (toSubPointer m) snd ≠ 0 ∧
    winPool s (toSubPointer m) ≠ 0 ∧
    winPool s (toSubPointer m) + losePool s (toSubPointer m) < U256LIMIT ∧
    r = winStake s (toSubPointer m) snd *
        (winPool s (toSubPointer m) + losePool s (toSubPointer m)) /
        winPool s (toSubPointer m) ∧
    s' = { s with claimed := upd2 s.claimed (toSubPointer m) snd 1 } := by
  unfold claimWinnings at h
  split at h
  · cases h
  next h0 =>
  split at h
  · cases h
  next h1 =>
  split at h
  · cases h
  next h2 =>
  split at h
  · cases h
  next tp hp1 =>
  split at h
  · cases h
  next pr hp2 =>
  split at h
  · cases h
  next po hp3 =>
  rw [not_not] at h0 h1
  injection h with h
  have hs := congrArg Prod.fst h
  have hr := congrArg Prod.snd h
  simp only at hs hr
  simp only [safeAdd] at hp1
  simp only [safeMul] at hp2
  simp only [safeDiv] at hp3
  split at hp1
  case _ hov1 =>
    injection hp1 with hp1
    split at hp3
    case _ => cases hp3
    case _ hw =>
      injection hp3 with hp3
      split at hp2
      case _ hov2 =>
        injection hp2 with hp2
        subst hp1
        subst hp2
        refine ⟨h0, h1, h2, hw, hov1, ?_, hs.symm⟩
        rw [← hr, ← hp3]
      case _ => cases hp2
  case _ => cases hp1

/-- The state invariant maintained by every entry point: market statuses range
over {0, OPEN, RESOLVED}; an OPEN market has outcome NONE and no claimed
flags; a RESOLVED market has outcome YES or NO; a never-created market slot
(status 0) is entirely zeroed; every nonzero-status key is the sub-pointer of
an assigned id; and the counter never exceeds `MAX_MARKETS`. -/
structure Inv (s : State) : Prop where
  count_le : s.marketCount ≤ MAX_MARKETS
  fresh_zero : ∀ i, s.marketCount < i → i ≤ MAX_MARKETS →
    s.status (toSubPointer i) = 0
  status_range : ∀ k, s.status k = 0 ∨ s.status k = STATUS_OPEN ∨
    s.status k = STATUS_RESOLVED
  open_outcome : ∀ k, s.status k = STATUS_OPEN → s.outcome k = 0
  resolved_outcome : ∀ k, s.status k = STATUS_RESOLVED →
    s.outcome k = OUTCOME_YES ∨ s.outcome k = OUTCOME_NO
  created_key : ∀ k, s.status k ≠ 0 →
    ∃ i, 1 ≤ i ∧ i ≤ s.marketCount ∧ k = toSubPointer i
  zero_all : ∀ k, s.status k = 0 →
    s.outcome k = 0 ∧ s.yesPool k = 0 ∧ s.noPool k = 0 ∧
    (∀ u, s.yesBets k u = 0 ∧ s.noBets k u = 0 ∧ s.claimed k u = 0)
  open_unclaimed : ∀ k, s.status k = STATUS_OPEN → ∀ u, s.claimed k u = 0

lemma inv_init (d : Nat) : Inv (initState d) := by
  constructor <;> intros <;>
    simp_all [initState, MAX_MARKETS, STATUS_OPEN, STATUS_RESOLVED]

lemma inv_step {s : State} (hs : Inv s) (t : Tx) : Inv (step s t) := by
  rcases happ : applyTx s t with _ | ⟨s', r⟩
  · rw [step_of_none happ]; exact hs
  rw [step_of_some happ]
  cases t with
  | create b snd q e o =>
    simp only [applyTx] at happ
    obtain ⟨hbe, hq, hcnt, hr, hs'⟩ := createMarket_some happ
    subst hs'
    have hM : MAX_MARKETS = 10000 := rfl
    rw [hM] at hcnt
    have hfresh : s.status (toSubPointer (s.marketCount + 1)) = 0 :=
      hs.fresh_zero _ (by omega) (by rw [hM]; omega)
    have hc2 : s.marketCount + 1 < 65536 := by omega
    constructor
    · dsimp only; rw [hM]; omega
    · intro i hi1 hi2
      dsimp only at hi1 ⊢
      rw [hM] at hi2
      by_cases hk : toSubPointer i = toSubPointer (s.marketCount + 1)
      · have := toSubPointer_inj (by omega) hc2 hk
        omega
      · simp only [upd, if_neg hk]
        exact hs.fresh_zero i (by omega) (by rw [hM]; omega)
    · intro k
      dsimp only
      by_cases hk : k = toSubPointer (s.marketCount + 1)
      · simp [upd, hk]
      · simp only [upd, if_neg hk]
        exact hs.status_range k
    · intro k
      dsimp only
      by_cases hk : k = toSubPointer (s.marketCount + 1)
      · simp [upd, hk]
      · simp only [upd, if_neg hk]
        exact hs.open_outcome k
    · intro k
      dsimp only
      by_cases hk : k = toSubPointer (s.marketCount + 1)
      · subst hk
        simp [upd, STATUS_OPEN, STATUS_RESOLVED]
      · simp only [upd, if_neg hk]
        exact hs.resolved_outcome k
    · intro k
      dsimp only
      by_cases hk : k = toSubPointer (s.marketCount + 1)
      · intro _
        exact ⟨s.marketCount + 1, by omega, le_refl _, hk⟩
      · simp only [upd, if_neg hk]
        intro hne
        obtain ⟨i, hi1, hi2, hki⟩ := hs.created_key k hne
        exact ⟨i, hi1, by omega, hki⟩
    · intro k
      dsimp only
      by_cases hk : k = toSubPointer (s.marketCount + 1)
      · subst hk
        simp [upd, STATUS_OPEN]
      · simp only [upd, if_neg hk]
        intro h0
        exact hs.zero_all k h0
    · intro k
      dsimp only
      by_cases hk : k = toSubPointer (s.marketCount + 1)
      · intro _ u
        subst hk
        exact ((hs.zero_all _ hfresh).2.2.2 u).2.2
      · simp only [upd, if_neg hk]
        exact hs.open_unclaimed k
  | bet b snd m oc a =>
    simp only [applyTx] at happ
    obtain ⟨hoc, hst, hbe, ha, hcases⟩ := placeBet_some happ
    have hkm : ∀ k, s.status k = 0 → k ≠ toSubPointer m := by
      intro k h0 hk
      rw [hk, hst] at h0
      exact absurd h0 (by decide)
    rcases hcases with ⟨hoc1, hov1, hov2, hs'⟩ | ⟨hoc2, hov1, hov2, hs'⟩ <;>
      subst hs'
    · refine ⟨hs.count_le, hs.fresh_zero, hs.status_range, hs.open_outcome,
        hs.resolved_outcome, hs.created_key, ?_, hs.open_unclaimed⟩
      intro k h0
      obtain ⟨ho, hy, hn, hu⟩ := hs.zero_all k h0
      have hk := hkm k h0
      refine ⟨ho, by simp [upd, hk, hy], hn, ?_⟩
      intro u
      exact ⟨by simp [upd2, hk, (hu u).1], (hu u).2.1, (hu u).2.2⟩
    · refine ⟨hs.count_le, hs.fresh_zero, hs.status_range, hs.open_outcome,
        hs.resolved_outcome, hs.created_key, ?_, hs.open_unclaimed⟩
      intro k h0
      obtain ⟨ho, hy, hn, hu⟩ := hs.zero_all k h0
      have hk := hkm k h0
      refine ⟨ho, hy, by simp [upd, hk, hn], ?_⟩
      intro u
      exact ⟨(hu u).1, by simp [upd2, hk, (hu u).2.1], (hu u).2.2⟩
  | resolve b snd m oc =>
    simp only [applyTx] at happ
    obtain ⟨hoc, hst, hora, hbe, hs'⟩ := resolveMarket_some happ
    subst hs'
    have hne0 : s.status (toSubPointer m) ≠ 0 := by
      rw [hst]; decide
    constructor
    · exact hs.count_le
    · intro i hi1 hi2
      dsimp only at hi1 ⊢
      have := hs.fresh_zero i hi1 hi2
      by_cases hk : toSubPointer i = toSubPointer m
      · rw [hk] at this
        rw [this] at hst
        exact absurd hst (by decide)
      · simp only [upd, if_neg hk]
        exact this
    · intro k
      dsimp only
      by_cases hk : k = toSubPointer m
      · simp [upd, hk]
      · simp only [upd, if_neg hk]
        exact hs.status_range k
    · intro k
      dsimp only
      by_cases hk : k = toSubPointer m
      · subst hk
        simp [upd, STATUS_OPEN, STATUS_RESOLVED]
      · simp only [upd, if_neg hk]
        exact hs.open_outcome k
    · intro k
      dsimp only
      by_cases hk : k = toSubPointer m
      · subst hk
        intro _
        simpa [upd] using hoc
      · simp only [upd, if_neg hk]
        exact hs.resolved_outcome k
    · intro k
      dsimp only
      by_cases hk : k = toSubPointer m
      · intro _
        obtain ⟨i, hi1, hi2, hki⟩ := hs.created_key _ hne0
        exact ⟨i, hi1, hi2, hk.trans hki⟩
      · simp only [upd, if_neg hk]
        exact hs.created_key k
    · intro k
      dsimp only
      by_cases hk : k = toSubPointer m
      · subst hk
        simp [upd, STATUS_RESOLVED]
      · simp only [upd, if_neg hk]
        intro h0
        exact hs.zero_all k h0
    · intro k
      dsimp only
      by_cases hk : k = toSubPointer m
      · subst hk
        simp [upd, STATUS_RESOLVED, STATUS_OPEN]
      · simp only [upd, if_neg hk]
        exact hs.open_unclaimed k
  | claim snd m =>
    simp only [applyTx] at happ
    obtain ⟨hst, hcl, hstake, hwp, hov, hr, hs'⟩ := claimWinnings_some happ
    subst hs'
    have hkm : ∀ k, s.status k ≠ STATUS_RESOLVED → k ≠ toSubPointer m := by
      intro k h0 hk
      rw [hk] at h0
      exact h0 hst
    refine ⟨hs.count_le, hs.fresh_zero, hs.status_range, hs.open_outcome,
      hs.resolved_outcome, hs.created_key, ?_, ?_⟩
    · intro k h0
      obtain ⟨ho, hy, hn, hu⟩ := hs.zero_all k h0
      have hk := hkm k (by rw [h0]; decide)
      refine ⟨ho, hy, hn, ?_⟩
      intro u
      exact ⟨(hu u).1, (hu u).2.1, by simp [upd2, hk, (hu u).2.2]⟩
    · intro k h1 u
      have hk := hkm k (by rw [h1]; decide)
      simp [upd2, hk, hs.open_unclaimed k h1 u]

lemma inv_run {s : State} (hs : Inv s) (txs : List Tx) : Inv (run s txs) := by
  induction txs generalizing s with
  | nil => exact hs
  | cons t rest ih => exact ih (inv_step hs t)

lemma inv_reachable {s : State} (hs : Reachable s) : Inv s := by
  obtain ⟨d, txs, rfl⟩ := hs
  exact inv_run (inv_init d) txs

/-- Claim C10: for every market id that has never been created (greater than
the current market counter, within the injective id range `1..10000`), the
market's status reads as the zero default, which is neither OPEN nor
RESOLVED, so `placeBet`, `resolveMarket` and `claimWinnings` on that id
always revert with no state change. -/
theorem uncreated_market_ops_revert (s : State) (hs : Reachable s) (id : Nat)
    (h1 : s.marketCount < id) (h2 : id ≤ MAX_MARKETS) :
    s.status (toSubPointer id) = 0
    ∧ (∀ b snd oc a, placeBet s b snd id oc a = none
        ∧ step s (Tx.bet b snd id oc a) = s)
    ∧ (∀ b snd oc, resolveMarket s b snd id oc = none
        ∧ step s (Tx.resolve b snd id oc) = s)
    ∧ (∀ snd, claimWinnings s snd id = none
        ∧ step s (Tx.claim snd id) = s) := by
  have hinv := inv_reachable hs
  have h0 : s.status (toSubPointer id) = 0 := hinv.fresh_zero id h1 h2
  have hop : s.status (toSubPointer id) ≠ STATUS_OPEN := by
    rw [h0]; decide
  have hrs : s.status (toSubPointer id) ≠ STATUS_RESOLVED := by
    rw [h0]; decide
  refine ⟨h0, ?_, ?_, ?_⟩
  · intro b snd oc a
    have hb : placeBet s b snd id oc a = none := by
      unfold placeBet
      by_cases hx : oc = OUTCOME_YES ∨ oc = OUTCOME_NO
      · simp [hx, hop]
      · simp [hx]
    exact ⟨hb, step_of_none (by simpa [applyTx] using hb)⟩
  · intro b snd oc
    have hb : resolveMarket s b snd id oc = none := by
      unfold resolveMarket
      by_cases hx : oc = OUTCOME_YES ∨ oc = OUTCOME_NO
      · simp [hx, hop]
      · simp [hx]
    exact ⟨hb, step_of_none (by simpa [applyTx] using hb)⟩
  · intro snd
    have hb : claimWinnings s snd id = none := by
      unfold claimWinnings
      simp [hrs]
    exact ⟨hb, step_of_none (by simpa [applyTx] using hb)⟩

/-- Witness for C10: on the Scenario-1 state (market counter 1), market id 2
was never created and all three operations revert on it. -/
theorem uncreated_market_ops_revert_witness :
    sampleState.status (toSubPointer 2) = 0
    ∧ (placeBet sampleState 1 8 2 1 5 = none
        ∧ step sampleState (Tx.bet 1 8 2 1 5) = sampleState)
    ∧ (resolveMarket sampleState 2 7 2 1 = none
        ∧ step sampleState (Tx.resolve 2 7 2 1) = sampleState)
    ∧ (claimWinnings sampleState 8 2 = none
        ∧ step sampleState (Tx.claim 8 2) = sampleState) := by
  have h := uncreated_market_ops_revert sampleState
    ⟨0, sampleTxs, rfl⟩ 2 (by decide) (by norm_num [MAX_MARKETS])
  exact ⟨h.1, h.2.1 1 8 1 5, h.2.2.1 2 7 1, h.2.2.2 8⟩

lemma claimed_nonzero_step {s : State} {k : List Nat} {u : Nat} (t : Tx)
    (h : s.claimed k u ≠ 0) : (step s t).claimed k u ≠ 0 := by
  rcases happ : applyTx s t with _ | ⟨s', r⟩
  · rw [step_of_none happ]; exact h
  rw [step_of_some happ]
  cases t with
  | create b snd q e o =>
    simp only [applyTx] at happ
    obtain ⟨-, -, -, -, hs'⟩ := createMarket_some happ
    subst hs'
    exact h
  | bet b snd m oc a =>
    simp only [applyTx] at happ
    obtain ⟨-, -, -, -, hcases⟩ := placeBet_some happ
    rcases hcases with ⟨-, -, -, hs'⟩ | ⟨-, -, -, hs'⟩ <;> subst hs' <;> exact h
  | resolve b snd m oc =>
    simp only [applyTx] at happ
    obtain ⟨-, -, -, -, hs'⟩ := resolveMarket_some happ
    subst hs'
    exact h
  | claim snd m =>
    simp only [applyTx] at happ
    obtain ⟨-, -, -, -, -, -, hs'⟩ := claimWinnings_some happ
    subst hs'
    dsimp only [upd2]
    split
    · split
      · simp
      · exact h
    · exact h

lemma claimed_nonzero_run {s : State} {k : List Nat} {u : Nat} (txs : List Tx)
    (h : s.claimed k u ≠ 0) : (run s txs).claimed k u ≠ 0 := by
  induction txs generalizing s with
  | nil => exact h
  | cons t rest ih => exact ih (claimed_nonzero_step t h)

lemma claimWinnings_of_claimed {s : State} {snd m : Nat}
    (h : s.claimed (toSubPointer m) snd ≠ 0) : claimWinnings s snd m = none := by
  unfold claimWinnings
  simp [h]

/-- Claim C3: for every (market, user) pair, `claimWinnings` succeeds at most
once: one successful call finds the claimed flag at 0 and sets it to 1, and
every later `claimWinnings` call by that user on that market (any id with the
same sub-pointer), after any interleaved transactions, reverts with no state
change; the flag stays set forever. -/
theorem claim_at_most_once (s : State) (snd m : Nat)
    (h : (claimWinnings s snd m).isSome = true) :
    s.claimed (toSubPointer m) snd = 0
    ∧ (step s (Tx.claim snd m)).claimed (toSubPointer m) snd = 1
    ∧ ∀ txs m', toSubPointer m' = toSubPointer m →
        claimWinnings (run (step s (Tx.claim snd m)) txs) snd m' = none
        ∧ step (run (step s (Tx.claim snd m)) txs) (Tx.claim snd m') =
            run (step s (Tx.claim snd m)) txs
        ∧ (run (step s (Tx.claim snd m)) txs).claimed (toSubPointer m) snd ≠ 0 := by
  rcases hcw : claimWinnings s snd m with _ | ⟨s', r⟩
  · rw [hcw] at h
    simp at h
  obtain ⟨hst, hcl, hstake, hwp, hov, hr, hs'⟩ := claimWinnings_some hcw
  have hstep : step s (Tx.claim snd m) = s' := step_of_some (by simpa [applyTx] using hcw)
  refine ⟨hcl, ?_, ?_⟩
  · rw [hstep, hs']
    simp [upd2]
  · intro txs m' hm'
    have h1 : s'.claimed (toSubPointer m) snd ≠ 0 := by
      rw [hs']
      simp [upd2]
    have h2 : (run (step s (Tx.claim snd m)) txs).claimed (toSubPointer m) snd ≠ 0 := by
      rw [hstep]
      exact claimed_nonzero_run txs h1
    have h3 : claimWinnings (run (step s (Tx.claim snd m)) txs) snd m' = none :=
      claimWinnings_of_claimed (by rw [hm']; exact h2)
    exact ⟨h3, step_of_none (by simpa [applyTx] using h3), h2⟩

/-- Witness for C3 on the Scenario-1 state: user 8 claims market 1 once;
an immediate retry reverts with no state change. -/
theorem claim_at_most_once_witness :
    sampleState.claimed (toSubPointer 1) 8 = 0
    ∧ (step sampleState (Tx.claim 8 1)).claimed (toSubPointer 1) 8 = 1
    ∧ claimWinnings (run (step sampleState (Tx.claim 8 1)) []) 8 1 = none
    ∧ step (run (step sampleState (Tx.claim 8 1)) []) (Tx.claim 8 1) =
        run (step sampleState (Tx.claim 8 1)) []
    ∧ (run (step sampleState (Tx.claim 8 1)) []).claimed (toSubPointer 1) 8 ≠ 0 :=
  have h := claim_at_most_once sampleState 8 1 (by decide)
  ⟨h.1, h.2.1, (h.2.2 [] 1 rfl).1, (h.2.2 [] 1 rfl).2.1, (h.2.2 [] 1 rfl).2.2⟩

lemma resolved_frozen_step {s : State} (hinv : Inv s) (t : Tx) {k : List Nat}
    (h : s.status k = STATUS_RESOLVED) :
    (step s t).status k = STATUS_RESOLVED
    ∧ (step s t).outcome k = s.outcome k
    ∧ (step s t).yesPool k = s.yesPool k
    ∧ (step s t).noPool k = s.noPool k
    ∧ (∀ u, (step s t).yesBets k u = s.yesBets k u
        ∧ (step s t).noBets k u = s.noBets k u) := by
  rcases happ : applyTx s t with _ | ⟨s', r⟩
  · rw [step_of_none happ]; exact ⟨h, rfl, rfl, rfl, fun u => ⟨rfl, rfl⟩⟩
  rw [step_of_some happ]
  cases t with
  | create b snd q e o =>
    simp only [applyTx] at happ
    obtain ⟨-, -, hcnt, -, hs'⟩ := createMarket_some happ
    have hM : MAX_MARKETS = 10000 := rfl
    have hfresh : s.status (toSubPointer (s.marketCount + 1)) = 0 :=
      hinv.fresh_zero _ (by omega) (by omega)
    have hk : k ≠ toSubPointer (s.marketCount + 1) := by
      intro hkk
      rw [hkk, hfresh] at h
      exact absurd h (by decide)
    subst hs'
    exact ⟨by simp [upd, hk, h], by simp [upd, hk], by simp [upd, hk],
      by simp [upd, hk], fun u => ⟨rfl, rfl⟩⟩
  | bet b snd m oc a =>
    simp only [applyTx] at happ
    obtain ⟨-, hst, -, -, hcases⟩ := placeBet_some happ
    have hk : k ≠ toSubPointer m := by
      intro hkk
      rw [hkk, hst] at h
      exact absurd h (by decide)
    rcases hcases with ⟨-, -, -, hs'⟩ | ⟨-, -, -, hs'⟩ <;> subst hs'
    · exact ⟨h, rfl, by simp [upd, hk], rfl, fun u => ⟨by simp [upd2, hk], rfl⟩⟩
    · exact ⟨h, rfl, rfl, by simp [upd, hk], fun u => ⟨rfl, by simp [upd2, hk]⟩⟩
  | resolve b snd m oc =>
    simp only [applyTx] at happ
    obtain ⟨-, hst, -, -, hs'⟩ := resolveMarket_some happ
    have hk : k ≠ toSubPointer m := by
      intro hkk
      rw [hkk, hst] at h
      exact absurd h (by decide)
    subst hs'
    exact ⟨by simp [upd, hk, h], by simp [upd, hk], rfl, rfl,
      fun u => ⟨rfl, rfl⟩⟩
  | claim snd m =>
    simp only [applyTx] at happ
    obtain ⟨-, -, -, -, -, -, hs'⟩ := claimWinnings_some happ
    subst hs'
    exact ⟨h, rfl, rfl, rfl, fun u => ⟨rfl, rfl⟩⟩

lemma resolved_frozen_run {s : State} (hinv : Inv s) (txs : List Tx)
    {k : List Nat} (h : s.status k = STATUS_RESOLVED) :
    (run s txs).status k = STATUS_RESOLVED
    ∧ (run s txs).outcome k = s.outcome k
    ∧ (run s txs).yesPool k = s.yesPool k
    ∧ (run s txs).noPool k = s.noPool k
    ∧ (∀ u, (run s txs).yesBets k u = s.yesBets k u
        ∧ (run s txs).noBets k u = s.noBets k u) := by
  induction txs generalizing s with
  | nil => exact ⟨h, rfl, rfl, rfl, fun u => ⟨rfl, rfl⟩⟩
  | cons t rest ih =>
    obtain ⟨h1, h2, h3, h4, h5⟩ := resolved_frozen_step hinv t h
    obtain ⟨g1, g2, g3, g4, g5⟩ := ih (inv_step hinv t) h1
    refine ⟨g1, g2.trans h2, g3.trans h3, g4.trans h4, fun u => ?_⟩
    exact ⟨(g5 u).1.trans (h5 u).1, (g5 u).2.trans (h5 u).2⟩

lemma open_pool_mono_step {s : State} (hinv : Inv s) (t : Tx) {k : List Nat}
    (h : s.status k = STATUS_OPEN) :
    s.yesPool k ≤ (step s t).yesPool k ∧ s.noPool k ≤ (step s t).noPool k := by
  rcases happ : applyTx s t with _ | ⟨s', r⟩
  · rw [step_of_none happ]; exact ⟨le_refl _, le_refl _⟩
  rw [step_of_some happ]
  cases t with
  | create b snd q e o =>
    simp only [applyTx] at happ
    obtain ⟨-, -, hcnt, -, hs'⟩ := createMarket_some happ
    have hM : MAX_MARKETS = 10000 := rfl
    have hfresh : s.status (toSubPointer (s.marketCount + 1)) = 0 :=
      hinv.fresh_zero _ (by omega) (by omega)
    have hk : k ≠ toSubPointer (s.marketCount + 1) := by
      intro hkk
      rw [hkk, hfresh] at h
      exact absurd h (by decide)
    subst hs'
    constructor <;> simp [upd, hk]
  | bet b snd m oc a =>
    simp only [applyTx] at happ
    obtain ⟨-, -, -, -, hcases⟩ := placeBet_some happ
    rcases hcases with ⟨-, -, -, hs'⟩ | ⟨-, -, -, hs'⟩ <;> subst hs'
    · refine ⟨?_, le_refl _⟩
      dsimp only [upd]
      split
      next heq => rw [heq]; omega
      next => exact le_refl _
    · refine ⟨le_refl _, ?_⟩
      dsimp only [upd]
      split
      next heq => rw [heq]; omega
      next => exact le_refl _
  | resolve b snd m oc =>
    simp only [applyTx] at happ
    obtain ⟨-, -, -, -, hs'⟩ := resolveMarket_some happ
    subst hs'
    exact ⟨le_refl _, le_refl _⟩
  | claim snd m =>
    simp only [applyTx] at happ
    obtain ⟨-, -, -, -, -, -, hs'⟩ := claimWinnings_some happ
    subst hs'
    exact ⟨le_refl _, le_refl _⟩

/-- Claim C5: in every reachable state, an OPEN market has outcome NONE and a
RESOLVED market has outcome YES or NO; the pools never decrease under any
operation while the market is OPEN; and once RESOLVED, the status stays
RESOLVED and the pools (and recorded outcome) never change again under any
further transaction sequence. -/
theorem market_lifecycle_invariants (s : State) (hs : Reachable s)
    (k : List Nat) :
    (s.status k = STATUS_OPEN → s.outcome k = 0)
    ∧ (s.status k = STATUS_RESOLVED →
        s.outcome k = OUTCOME_YES ∨ s.outcome k = OUTCOME_NO)
    ∧ (∀ t, s.status k = STATUS_OPEN →
        s.yesPool k ≤ (step s t).yesPool k ∧ s.noPool k ≤ (step s t).noPool k)
    ∧ (∀ txs, s.status k = STATUS_RESOLVED →
        (run s txs).status k = STATUS_RESOLVED
        ∧ (run s txs).yesPool k = s.yesPool k
        ∧ (run s txs).noPool k = s.noPool k
        ∧ (run s txs).outcome k = s.outcome k) := by
  have hinv := inv_reachable hs
  refine ⟨hinv.open_outcome k, hinv.resolved_outcome k, ?_, ?_⟩
  · intro t h
    exact open_pool_mono_step hinv t h
  · intro txs h
    obtain ⟨h1, h2, h3, h4, -⟩ := resolved_frozen_run hinv txs h
    exact ⟨h1, h3, h4, h2⟩

/-- Witness for C5 on the Scenario-1 state: market 1 is RESOLVED with outcome
YES, and a further bet transaction leaves status and pools unchanged. -/
theorem market_lifecycle_invariants_witness :
    (sampleState.status (toSubPointer 1) = STATUS_OPEN →
      sampleState.outcome (toSubPointer 1) = 0)
    ∧ (sampleState.outcome (toSubPointer 1) = OUTCOME_YES ∨
        sampleState.outcome (toSubPointer 1) = OUTCOME_NO)
    ∧ ((run sampleState [Tx.bet 3 8 1 1 50]).status (toSubPointer 1) =
        STATUS_RESOLVED
      ∧ (run sampleState [Tx.bet 3 8 1 1 50]).yesPool (toSubPointer 1) =
          sampleState.yesPool (toSubPointer 1)
      ∧ (run sampleState [Tx.bet 3 8 1 1 50]).noPool (toSubPointer 1) =
          sampleState.noPool (toSubPointer 1)
      ∧ (run sampleState [Tx.bet 3 8 1 1 50]).outcome (toSubPointer 1) =
          sampleState.outcome (toSubPointer 1)) :=
  have h := market_lifecycle_invariants sampleState ⟨0, sampleTxs, rfl⟩
    (toSubPointer 1)
  ⟨h.1, h.2.1 (by decide), h.2.2.2 [Tx.bet 3 8 1 1 50] (by decide)⟩

/-- The state after creating market 1 (deadline 2, oracle 7) and placing the
two Scenario-1 bets, before resolution. -/
def betState : State :=
  run (initState 0) [Tx.create 1 9 1 2 7, Tx.bet 1 8 1 1 3000, Tx.bet 1 6 1 2 1000]

/-- Claim C7: `resolveMarket` reverts with no state change iff the outcome is
not exactly 1 or 2, or the market's status is not OPEN (including
already-resolved markets), or the caller differs from the oracle recorded at
creation, or the block height is strictly below `endBlock`; on success it sets
status to RESOLVED and records the outcome; and on a reachable state this is
the only write to status/outcome of a created market: any transaction that
changes them is a `resolveMarket` on that same market key. -/
theorem resolveMarket_spec (s : State) (b snd m oc : Nat) :
    (resolveMarket s b snd m oc = none ↔
      ¬(oc = OUTCOME_YES ∨ oc = OUTCOME_NO)
      ∨ s.status (toSubPointer m) ≠ STATUS_OPEN
      ∨ snd ≠ s.oracle (toSubPointer m)
      ∨ b < s.endBlock (toSubPointer m))
    ∧ (resolveMarket s b snd m oc = none → step s (Tx.resolve b snd m oc) = s)
    ∧ ((resolveMarket s b snd m oc).isSome = true →
        (step s (Tx.resolve b snd m oc)).status (toSubPointer m) = STATUS_RESOLVED
        ∧ (step s (Tx.resolve b snd m oc)).outcome (toSubPointer m) = oc)
    ∧ (∀ t, Reachable s → s.status (toSubPointer m) ≠ 0 →
        ((step s t).status (toSubPointer m) ≠ s.status (toSubPointer m)
          ∨ (step s t).outcome (toSubPointer m) ≠ s.outcome (toSubPointer m)) →
        ∃ b' snd' m' oc', t = Tx.resolve b' snd' m' oc'
          ∧ toSubPointer m' = toSubPointer m) := by
  refine ⟨?_, ?_, ?_, ?_⟩
  · constructor
    · intro hnone
      by_contra hcon
      push_neg at hcon
      obtain ⟨h1, h2, h3, h4⟩ := hcon
      unfold resolveMarket at hnone
      simp [h1, h2, h3.symm, not_lt.mpr h4] at hnone
    · intro hcond
      unfold resolveMarket
      rcases hcond with h | h | h | h
      · simp [h]
      · by_cases h1 : oc = OUTCOME_YES ∨ oc = OUTCOME_NO
        · simp [h1, h]
        · simp [h1]
      · by_cases h1 : oc = OUTCOME_YES ∨ oc = OUTCOME_NO
        · by_cases h2 : s.status (toSubPointer m) = STATUS_OPEN
          · simp [h1, h2, h]
          · simp [h1, h2]
        · simp [h1]
      · by_cases h1 : oc = OUTCOME_YES ∨ oc = OUTCOME_NO
        · by_cases h2 : s.status (toSubPointer m) = STATUS_OPEN
          · by_cases h3 : snd = s.oracle (toSubPointer m)
            · simp [h1, h2, h3, h]
            · simp [h1, h2, h3]
          · simp [h1, h2]
        · simp [h1]
  · intro hnone
    exact step_of_none (by simpa [applyTx] using hnone)
  · intro hsome
    rcases hcw : resolveMarket s b snd m oc with _ | ⟨s', r⟩
    · rw [hcw] at hsome; simp at hsome
    obtain ⟨-, -, -, -, hs'⟩ := resolveMarket_some hcw
    rw [step_of_some (by simpa [applyTx] using hcw), hs']
    constructor <;> simp [upd]
  · intro t hreach hne0 hchange
    have hinv := inv_reachable hreach
    rcases happ : applyTx s t with _ | ⟨s', r⟩
    · rw [step_of_none happ] at hchange
      rcases hchange with hc | hc <;> exact absurd rfl hc
    rw [step_of_some happ] at hchange
    cases t with
    | create b' snd' q' e' o' =>
      simp only [applyTx] at happ
      obtain ⟨-, -, hcnt, -, hs'⟩ := createMarket_some happ
      obtain ⟨i, hi1, hi2, hki⟩ := hinv.created_key _ hne0
      have hM : MAX_MARKETS = 10000 := rfl
      have hk : toSubPointer m ≠ toSubPointer (s.marketCount + 1) := by
        rw [hki]
        intro hkk
        have hcle := hinv.count_le
        have := toSubPointer_inj (by omega) (by omega) hkk
        omega
      subst hs'
      rcases hchange with hc | hc <;> simp [upd, hk] at hc
    | bet b' snd' m' oc' a' =>
      simp only [applyTx] at happ
      obtain ⟨-, -, -, -, hcases⟩ := placeBet_some happ
      rcases hcases with ⟨-, -, -, hs'⟩ | ⟨-, -, -, hs'⟩ <;> subst hs' <;>
        rcases hchange with hc | hc <;> exact absurd rfl hc
    | resolve b' snd' m' oc' =>
      refine ⟨b', snd', m', oc', rfl, ?_⟩
      simp only [applyTx] at happ
      obtain ⟨-, -, -, -, hs'⟩ := resolveMarket_some happ
      subst hs'
      by_contra hk
      have hk2 : toSubPointer m ≠ toSubPointer m' := fun hx => hk (hx.symm ▸ rfl)
      rcases hchange with hc | hc <;> simp [upd, hk2] at hc
    | claim snd' m' =>
      simp only [applyTx] at happ
      obtain ⟨-, -, -, -, -, -, hs'⟩ := claimWinnings_some happ
      subst hs'
      rcases hchange with hc | hc <;> exact absurd rfl hc

/-- Witness for C7: the oracle resolves market 1 at block 2 in the bet state;
status becomes RESOLVED and the outcome is recorded. -/
theorem resolveMarket_spec_witness :
    (step betState (Tx.resolve 2 7 1 1)).status (toSubPointer 1) = STATUS_RESOLVED
    ∧ (step betState (Tx.resolve 2 7 1 1)).outcome (toSubPointer 1) = 1 :=
  (resolveMarket_spec betState 2 7 1 1).2.2.1 (by decide)

/-- A state in which the YES pool of market 1 holds the maximal u256 value:
market 1 is created at block 1 with deadline 10, then a YES bet of
`2^256 - 1` sats is placed. -/
def overflowState : State :=
  run (initState 0) [Tx.create 1 9 1 10 7, Tx.bet 2 9 1 1 (U256LIMIT - 1)]

/-- Counterexample to C6 as stated: in `overflowState`, a further YES bet of
1 sat satisfies all four stated preconditions (valid outcome, OPEN market,
block 3 before the deadline 10, nonzero amount) yet `placeBet` reverts,
because the overflow-checked pool addition fails. -/
theorem placeBet_gating_counterexample :
    ((1 : Nat) = OUTCOME_YES ∨ (1 : Nat) = OUTCOME_NO)
    ∧ overflowState.status (toSubPointer 1) = STATUS_OPEN
    ∧ ¬(overflowState.endBlock (toSubPointer 1) ≤ 3)
    ∧ (1 : Nat) ≠ 0
    ∧ placeBet overflowState 3 9 1 1 1 = none := by
  refine ⟨by decide, by decide, by decide, by decide, ?_⟩
  have hst : overflowState.status (toSubPointer 1) = STATUS_OPEN := by decide
  have hyp : overflowState.yesPool (toSubPointer 1) = U256LIMIT - 1 := by decide
  unfold placeBet
  rw [if_neg (by decide), if_neg (by simp [hst]), if_neg (by decide),
    if_neg (by decide), if_pos (by decide : (1 : Nat) = OUTCOME_YES)]
  rw [hyp]
  rw [show safeAdd (U256LIMIT - 1) 1 = none by
    unfold safeAdd
    rw [if_neg (by norm_num [U256LIMIT])]]

/-- Claim C6 (amended): `placeBet` reverts with no state change iff the
outcome is not exactly 1 or 2, or the market's status is not OPEN, or the
block height is at or past `endBlock` (the deadline excludes the end block
itself), or the amount is 0, or the overflow-checked addition to the chosen
pool or to the caller's bet accumulator would exceed the u256 range; when the
four stated preconditions hold and neither addition overflows, the call
succeeds and increments the chosen pool and the caller's matching bet
accumulator by `amount`. -/
theorem placeBet_gating (s : State) (b snd m oc a : Nat) :
    (placeBet s b snd m oc a = none ↔
      ¬(oc = OUTCOME_YES ∨ oc = OUTCOME_NO)
      ∨ s.status (toSubPointer m) ≠ STATUS_OPEN
      ∨ s.endBlock (toSubPointer m) ≤ b
      ∨ a = 0
      ∨ (oc = OUTCOME_YES ∧ U256LIMIT ≤ s.yesPool (toSubPointer m) + a)
      ∨ (oc = OUTCOME_YES ∧ U256LIMIT ≤ s.yesBets (toSubPointer m) snd + a)
      ∨ (oc = OUTCOME_NO ∧ U256LIMIT ≤ s.noPool (toSubPointer m) + a)
      ∨ (oc = OUTCOME_NO ∧ U256LIMIT ≤ s.noBets (toSubPointer m) snd + a))
    ∧ (placeBet s b snd m oc a = none → step s (Tx.bet b snd m oc a) = s)
    ∧ ((placeBet s b snd m oc a).isSome = true →
        (oc = OUTCOME_YES →
          (step s (Tx.bet b snd m oc a)).yesPool (toSubPointer m) =
            s.yesPool (toSubPointer m) + a
          ∧ (step s (Tx.bet b snd m oc a)).yesBets (toSubPointer m) snd =
            s.yesBets (toSubPointer m) snd + a)
        ∧ (oc = OUTCOME_NO →
          (step s (Tx.bet b snd m oc a)).noPool (toSubPointer m) =
            s.noPool (toSubPointer m) + a
          ∧ (step s (Tx.bet b snd m oc a)).noBets (toSubPointer m) snd =
            s.noBets (toSubPointer m) snd + a)) := by
  refine ⟨?_, ?_, ?_⟩
  · by_cases h0 : oc = OUTCOME_YES ∨ oc = OUTCOME_NO
    case neg =>
      unfold placeBet
      simp [h0]
    by_cases h1 : s.status (toSubPointer m) = STATUS_OPEN
    case neg =>
      unfold placeBet
      simp [h0, h1]
    by_cases h2 : s.endBlock (toSubPointer m) ≤ b
    case pos =>
      unfold placeBet
      simp [h0, h1, h2]
    by_cases h3 : a = 0
    case pos =>
      unfold placeBet
      simp [h0, h1, h2, h3]
    rcases h0 with h4 | h4
    · subst h4
      by_cases h5 : s.yesPool (toSubPointer m) + a < U256LIMIT
      · by_cases h6 : s.yesBets (toSubPointer m) snd + a < U256LIMIT
        · unfold placeBet
          simp [h1, h2, h3, safeAdd, h5, h6, OUTCOME_YES, OUTCOME_NO] <;> omega
        · unfold placeBet
          simp [h1, h2, h3, safeAdd, h5, h6, OUTCOME_YES, OUTCOME_NO] <;> omega
      · unfold placeBet
        simp [h1, h2, h3, safeAdd, h5, OUTCOME_YES, OUTCOME_NO] <;> omega
    · subst h4
      have hne : ¬((OUTCOME_NO : Nat) = OUTCOME_YES) := by decide
      by_cases h5 : s.noPool (toSubPointer m) + a < U256LIMIT
      · by_cases h6 : s.noBets (toSubPointer m) snd + a < U256LIMIT
        · unfold placeBet
          simp [h1, h2, h3, safeAdd, h5, h6, hne, OUTCOME_YES, OUTCOME_NO] <;> omega
        · unfold placeBet
          simp [h1, h2, h3, safeAdd, h5, h6, hne, OUTCOME_YES, OUTCOME_NO] <;> omega
      · unfold placeBet
        simp [h1, h2, h3, safeAdd, h5, hne, OUTCOME_YES, OUTCOME_NO] <;> omega
  · intro hnone
    exact step_of_none (by simpa [applyTx] using hnone)
  · intro hsome
    rcases hcw : placeBet s b snd m oc a with _ | ⟨s', r⟩
    · rw [hcw] at hsome; simp at hsome
    have hstep : step s (Tx.bet b snd m oc a) = s' :=
      step_of_some (by simpa [applyTx] using hcw)
    obtain ⟨-, -, -, -, hcases⟩ := placeBet_some hcw
    rcases hcases with ⟨hoc, -, -, hs'⟩ | ⟨hoc, -, -, hs'⟩ <;> subst hs'
    · constructor
      · intro _
        rw [hstep]
        constructor <;> simp [upd, upd2]
      · intro hcontra
        rw [hoc] at hcontra
        exact absurd hcontra (by decide)
    · constructor
      · intro hcontra
        rw [hoc] at hcontra
        exact absurd hcontra (by decide)
      · intro _
        rw [hstep]
        constructor <;> simp [upd, upd2]

/-- Witness for C6: the Scenario-1 YES bet of 3000 sats succeeds and
increments the YES pool and the bettor's YES accumulator. -/
theorem placeBet_gating_witness :
    ((1 : Nat) = OUTCOME_YES →
      (step betState (Tx.bet 1 6 1 1 500)).yesPool (toSubPointer 1) =
        betState.yesPool (toSubPointer 1) + 500
      ∧ (step betState (Tx.bet 1 6 1 1 500)).yesBets (toSubPointer 1) 6 =
        betState.yesBets (toSubPointer 1) 6 + 500)
    ∧ ((1 : Nat) = OUTCOME_NO →
      (step betState (Tx.bet 1 6 1 1 500)).noPool (toSubPointer 1) =
        betState.noPool (toSubPointer 1) + 500
      ∧ (step betState (Tx.bet 1 6 1 1 500)).noBets (toSubPointer 1) 6 =
        betState.noBets (toSubPointer 1) 6 + 500) :=
  (placeBet_gating betState 1 6 1 1 500).2.2 (by decide)

/-- One observable step inside a `claimWinnings` execution: computing the
payout value, writing the caller's claimed flag, or emitting the
`WinningsClaimed` event with the payout as payload. -/
inductive ClaimStep where
  | computePayout (v : Nat)
  | setClaimedFlag
  | emitWinningsClaimed (v : Nat)
deriving DecidableEq

/-- The ordered effect sequence of a successful `claimWinnings` execution,
transcribed from the source's statement order: the payout is computed
(line 327), then the claimed flag is written (line 329), then the
`WinningsClaimed` event is emitted with the payout (line 331).  `none` when
the call reverts. -/
def claimWinningsSteps (s : State) (sender marketId : Nat) :
    Option (List ClaimStep) :=
  (claimWinnings s sender marketId).map (fun r =>
    [ClaimStep.computePayout r.2, ClaimStep.setClaimedFlag,
     ClaimStep.emitWinningsClaimed r.2])

/-- Whether a step is the payout computation. -/
def stepIsCompute : ClaimStep → Bool
  | ClaimStep.computePayout _ => true
  | _ => false

/-- Whether a step is the claimed-flag write. -/
def stepIsFlag : ClaimStep → Bool
  | ClaimStep.setClaimedFlag => true
  | _ => false

/-- Whether a step is the event emission. -/
def stepIsEmit : ClaimStep → Bool
  | ClaimStep.emitWinningsClaimed _ => true
  | _ => false

/-- The claimed-flag write precedes every payout computation and every event
emission in the sequence. -/
def flagFirst (l : List ClaimStep) : Prop :=
  ∀ (i j : Fin l.length),
    (stepIsCompute (l.get i) = true ∨ stepIsEmit (l.get i) = true) →
    stepIsFlag (l.get j) = true → (j : Nat) < (i : Nat)

/-- Counterexample to C4 as stated: in the Scenario-1 claim the effect
sequence computes the payout first, so the claimed-flag write does not
precede the payout computation. -/
theorem claim_flag_order_counterexample :
    claimWinningsSteps sampleState 8 1 =
      some [ClaimStep.computePayout 4000, ClaimStep.setClaimedFlag,
        ClaimStep.emitWinningsClaimed 4000]
    ∧ ¬ flagFirst [ClaimStep.computePayout 4000, ClaimStep.setClaimedFlag,
        ClaimStep.emitWinningsClaimed 4000] := by
  constructor
  · decide
  · unfold flagFirst
    decide

/-- Claim C4 (amended): in every successful `claimWinnings` execution the
caller's claimed flag is set after the payout value is computed but before
the `WinningsClaimed` event is emitted: the effect sequence is exactly
payout computation, flag write, event emission, and in particular the flag
write precedes the event emission. -/
theorem claim_flag_before_emit (s : State) (snd m : Nat) (l : List ClaimStep)
    (h : claimWinningsSteps s snd m = some l) :
    (∃ p, claimAmount s snd m = some p ∧
      l = [ClaimStep.computePayout p, ClaimStep.setClaimedFlag,
        ClaimStep.emitWinningsClaimed p])
    ∧ (∀ (i j : Fin l.length), stepIsFlag (l.get i) = true →
        stepIsEmit (l.get j) = true → (i : Nat) < (j : Nat))
    ∧ (∀ (i j : Fin l.length), stepIsCompute (l.get i) = true →
        stepIsFlag (l.get j) = true → (i : Nat) < (j : Nat)) := by
  unfold claimWinningsSteps at h
  rcases hcw : claimWinnings s snd m with _ | ⟨s', q⟩
  · rw [hcw] at h; cases h
  rw [hcw] at h
  simp only [Option.map_some'] at h
  injection h with h
  subst h
  refine ⟨⟨q, by simp [claimAmount, hcw], rfl⟩, ?_, ?_⟩
  · intro i j hi hj
    fin_cases i <;> fin_cases j <;>
      simp_all [stepIsFlag, stepIsEmit, List.get]
  · intro i j hi hj
    fin_cases i <;> fin_cases j <;>
      simp_all [stepIsCompute, stepIsFlag, List.get]

/-- Witness for C4 (amended) on the Scenario-1 claim. -/
theorem claim_flag_before_emit_witness :
    (∃ p, claimAmount sampleState 8 1 = some p ∧
      ([ClaimStep.computePayout 4000, ClaimStep.setClaimedFlag,
        ClaimStep.emitWinningsClaimed 4000] : List ClaimStep) =
        [ClaimStep.computePayout p, ClaimStep.setClaimedFlag,
          ClaimStep.emitWinningsClaimed p])
    ∧ (∀ (i j : Fin ([ClaimStep.computePayout 4000, ClaimStep.setClaimedFlag,
          ClaimStep.emitWinningsClaimed 4000] : List ClaimStep).length),
        stepIsFlag (([ClaimStep.computePayout 4000, ClaimStep.setClaimedFlag,
          ClaimStep.emitWinningsClaimed 4000] : List ClaimStep).get i) = true →
        stepIsEmit (([ClaimStep.computePayout 4000, ClaimStep.setClaimedFlag,
          ClaimStep.emitWinningsClaimed 4000] : List ClaimStep).get j) = true →
        (i : Nat) < (j : Nat))
    ∧ (∀ (i j : Fin ([ClaimStep.computePayout 4000, ClaimStep.setClaimedFlag,
          ClaimStep.emitWinningsClaimed 4000] : List ClaimStep).length),
        stepIsCompute (([ClaimStep.computePayout 4000, ClaimStep.setClaimedFlag,
          ClaimStep.emitWinningsClaimed 4000] : List ClaimStep).get i) = true →
        stepIsFlag (([ClaimStep.computePayout 4000, ClaimStep.setClaimedFlag,
          ClaimStep.emitWinningsClaimed 4000] : List ClaimStep).get j) = true →
        (i : Nat) < (j : Nat)) :=
  claim_flag_before_emit sampleState 8 1
    [ClaimStep.computePayout 4000, ClaimStep.setClaimedFlag,
      ClaimStep.emitWinningsClaimed 4000] (by decide)

/-- Pool accounting relative to a finite set `A` of addresses containing
every transaction sender: users outside `A` hold no bets and no claimed flag,
and each pool equals the sum over `A` of the matching bet accumulators. -/
def SumInv (A : Finset Nat) (s : State) : Prop :=
  (∀ k u, u ∉ A → s.yesBets k u = 0 ∧ s.noBets k u = 0 ∧ s.claimed k u = 0) ∧
  (∀ k, s.yesPool k = ∑ u in A, s.yesBets k u ∧
        s.noPool k = ∑ u in A, s.noBets k u)

/-- The total winning-side stake of users in `A` who have not yet claimed. -/
def unclaimedStake (s : State) (A : Finset Nat) (k : List Nat) : Nat :=
  ∑ u in A.filter (fun u => s.claimed k u = 0), winStake s k u

lemma sumInv_init (A : Finset Nat) (d : Nat) : SumInv A (initState d) := by
  constructor
  · intro k u _
    exact ⟨rfl, rfl, rfl⟩
  · intro k
    constructor <;> simp [initState]

lemma sum_update (A : Finset Nat) (f : Nat → Nat) (snd a : Nat)
    (hsnd : snd ∈ A) :
    ∑ u in A, (if u = snd then f snd + a else f u) = (∑ u in A, f u) + a := by
  have h1 := Finset.add_sum_erase A f hsnd
  have h2 := Finset.add_sum_erase A
    (fun u => if u = snd then f snd + a else f u) hsnd
  have h3 : ∑ x in A.erase snd, (if x = snd then f snd + a else f x) =
      ∑ x in A.erase snd, f x :=
    Finset.sum_congr rfl fun u hu => if_neg (Finset.ne_of_mem_erase hu)
  dsimp only at h2
  rw [if_pos rfl] at h2
  calc ∑ u in A, (if u = snd then f snd + a else f u)
      = f snd + a + ∑ x in A.erase snd,
          (if x = snd then f snd + a else f x) := h2.symm
    _ = f snd + a + ∑ x in A.erase snd, f x := by rw [h3]
    _ = (f snd + ∑ x in A.erase snd, f x) + a := by ring
    _ = (∑ u in A, f u) + a := by rw [h1]

lemma sumInv_step {A : Finset Nat} {s : State} (t : Tx)
    (hsendt : txSender t ∈ A) (hinv : Inv s) (hsum : SumInv A s) :
    SumInv A (step s t) := by
  rcases happ : applyTx s t with _ | ⟨s', r⟩
  · rw [step_of_none happ]; exact hsum
  rw [step_of_some happ]
  cases t with
  | create b snd q e o =>
    simp only [applyTx] at happ
    obtain ⟨-, -, hcnt, -, hs'⟩ := createMarket_some happ
    have hM : MAX_MARKETS = 10000 := rfl
    have hfresh : s.status (toSubPointer (s.marketCount + 1)) = 0 :=
      hinv.fresh_zero _ (by omega) (by omega)
    have hz := hinv.zero_all _ hfresh
    subst hs'
    refine ⟨fun k u hu => hsum.1 k u hu, ?_⟩
    intro k
    dsimp only
    by_cases hk : k = toSubPointer (s.marketCount + 1)
    · subst hk
      constructor
      · rw [show upd s.yesPool (toSubPointer (s.marketCount + 1)) 0
            (toSubPointer (s.marketCount + 1)) = 0 by simp [upd]]
        exact (Finset.sum_eq_zero fun u _ => (hz.2.2.2 u).1).symm
      · rw [show upd s.noPool (toSubPointer (s.marketCount + 1)) 0
            (toSubPointer (s.marketCount + 1)) = 0 by simp [upd]]
        exact (Finset.sum_eq_zero fun u _ => (hz.2.2.2 u).2.1).symm
    · constructor
      · rw [show upd s.yesPool (toSubPointer (s.marketCount + 1)) 0 k =
            s.yesPool k by simp [upd, hk]]
        exact (hsum.2 k).1
      · rw [show upd s.noPool (toSubPointer (s.marketCount + 1)) 0 k =
            s.noPool k by simp [upd, hk]]
        exact (hsum.2 k).2
  | bet b snd m oc a =>
    simp only [applyTx] at happ
    obtain ⟨-, -, -, -, hcases⟩ := placeBet_some happ
    have hsnd : snd ∈ A := hsendt
    rcases hcases with ⟨-, -, -, hs'⟩ | ⟨-, -, -, hs'⟩ <;> subst hs'
    · refine ⟨?_, ?_⟩
      · intro k u hu
        have hune : u ≠ snd := fun h => hu (h ▸ hsnd)
        refine ⟨?_, (hsum.1 k u hu).2.1, (hsum.1 k u hu).2.2⟩
        have := (hsum.1 k u hu).1
        simp [upd2, hune, this]
      · intro k
        dsimp only
        by_cases hk : k = toSubPointer m
        · subst hk
          refine ⟨?_, (hsum.2 _).2⟩
          rw [show upd s.yesPool (toSubPointer m)
              (s.yesPool (toSubPointer m) + a) (toSubPointer m) =
              s.yesPool (toSubPointer m) + a by simp [upd]]
          rw [show (∑ u in A, upd2 s.yesBets (toSubPointer m) snd
              (s.yesBets (toSubPointer m) snd + a) (toSubPointer m) u) =
              ∑ u in A, (if u = snd then s.yesBets (toSubPointer m) snd + a
                else s.yesBets (toSubPointer m) u) by
            exact Finset.sum_congr rfl fun u _ => by simp [upd2]]
          rw [sum_update A _ snd a hsnd]
          rw [(hsum.2 _).1]
        · refine ⟨?_, (hsum.2 k).2⟩
          rw [show upd s.yesPool (toSubPointer m)
              (s.yesPool (toSubPointer m) + a) k = s.yesPool k by
            simp [upd, hk]]
          rw [show (∑ u in A, upd2 s.yesBets (toSubPointer m) snd
              (s.yesBets (toSubPointer m) snd + a) k u) =
              ∑ u in A, s.yesBets k u by
            exact Finset.sum_congr rfl fun u _ => by simp [upd2, hk]]
          exact (hsum.2 k).1
    · refine ⟨?_, ?_⟩
      · intro k u hu
        have hune : u ≠ snd := fun h => hu (h ▸ hsnd)
        refine ⟨(hsum.1 k u hu).1, ?_, (hsum.1 k u hu).2.2⟩
        have := (hsum.1 k u hu).2.1
        simp [upd2, hune, this]
      · intro k
        dsimp only
        by_cases hk : k = toSubPointer m
        · subst hk
          refine ⟨(hsum.2 _).1, ?_⟩
          rw [show upd s.noPool (toSubPointer m)
              (s.noPool (toSubPointer m) + a) (toSubPointer m) =
              s.noPool (toSubPointer m) + a by simp [upd]]
          rw [show (∑ u in A, upd2 s.noBets (toSubPointer m) snd
              (s.noBets (toSubPointer m) snd + a) (toSubPointer m) u) =
              ∑ u in A, (if u = snd then s.noBets (toSubPointer m) snd + a
                else s.noBets (toSubPointer m) u) by
            exact Finset.sum_congr rfl fun u _ => by simp [upd2]]
          rw [sum_update A _ snd a hsnd]
          rw [(hsum.2 _).2]
        · refine ⟨(hsum.2 k).1, ?_⟩
          rw [show upd s.noPool (toSubPointer m)
              (s.noPool (toSubPointer m) + a) k = s.noPool k by
            simp [upd, hk]]
          rw [show (∑ u in A, upd2 s.noBets (toSubPointer m) snd
              (s.noBets (toSubPointer m) snd + a) k u) =
              ∑ u in A, s.noBets k u by
            exact Finset.sum_congr rfl fun u _ => by simp [upd2, hk]]
          exact (hsum.2 k).2
  | resolve b snd m oc =>
    simp only [applyTx] at happ
    obtain ⟨-, -, -, -, hs'⟩ := resolveMarket_some happ
    subst hs'
    exact hsum
  | claim snd m =>
    simp only [applyTx] at happ
    obtain ⟨-, -, -, -, -, -, hs'⟩ := claimWinnings_some happ
    have hsnd : snd ∈ A := hsendt
    subst hs'
    refine ⟨?_, hsum.2⟩
    intro k u hu
    have hune : u ≠ snd := fun h => hu (h ▸ hsnd)
    refine ⟨(hsum.1 k u hu).1, (hsum.1 k u hu).2.1, ?_⟩
    have := (hsum.1 k u hu).2.2
    simp [upd2, hune, this]

lemma win_add_lose (s : State) (k : List Nat) :
    winPool s k + losePool s k = s.yesPool k + s.noPool k := by
  unfold winPool losePool
  split <;> omega

lemma winPool_congr {s s' : State} {k : List Nat}
    (ho : s'.outcome k = s.outcome k) (hy : s'.yesPool k = s.yesPool k)
    (hn : s'.noPool k = s.noPool k) : winPool s' k = winPool s k := by
  unfold winPool
  rw [ho, hy, hn]

lemma winStake_congr {s s' : State} {k : List Nat}
    (ho : s'.outcome k = s.outcome k)
    (hy : ∀ u, s'.yesBets k u = s.yesBets k u)
    (hn : ∀ u, s'.noBets k u = s.noBets k u) (u : Nat) :
    winStake s' k u = winStake s k u := by
  unfold winStake
  rw [ho, hy, hn]

lemma unclaimedStake_congr {s s' : State} {A : Finset Nat} {k : List Nat}
    (hcl : ∀ u, s'.claimed k u = s.claimed k u)
    (hst : ∀ u, winStake s' k u = winStake s k u) :
    unclaimedStake s' A k = unclaimedStake s A k := by
  unfold unclaimedStake
  rw [Finset.filter_congr (fun u _ => by rw [hcl u])]
  exact Finset.sum_congr rfl fun u _ => hst u

lemma unclaimedStake_claim (A : Finset Nat) (s : State) (k : List Nat)
    (snd : Nat) (hsnd : snd ∈ A) (hcl : s.claimed k snd = 0) :
    unclaimedStake s A k =
      winStake s k snd +
        unclaimedStake { s with claimed := upd2 s.claimed k snd 1 } A k := by
  have hmem : snd ∈ A.filter (fun u => s.claimed k u = 0) :=
    Finset.mem_filter.mpr ⟨hsnd, hcl⟩
  have hfe : A.filter (fun u =>
      ({ s with claimed := upd2 s.claimed k snd 1 } : State).claimed k u = 0) =
      (A.filter (fun u => s.claimed k u = 0)).erase snd := by
    ext u
    simp only [Finset.mem_filter, Finset.mem_erase]
    constructor
    · rintro ⟨huA, hc⟩
      dsimp only [upd2] at hc
      rw [if_pos rfl] at hc
      by_cases hus : u = snd
      · rw [if_pos hus] at hc
        cases hc
      · rw [if_neg hus] at hc
        exact ⟨hus, huA, hc⟩
    · rintro ⟨hus, huA, hc⟩
      refine ⟨huA, ?_⟩
      dsimp only [upd2]
      rw [if_pos rfl, if_neg hus]
      exact hc
  unfold unclaimedStake
  rw [hfe]
  rw [show winStake { s with claimed := upd2 s.claimed k snd 1 } = winStake s
    from rfl]
  exact (Finset.add_sum_erase _ _ hmem).symm

lemma unclaimedStake_all_unclaimed {A : Finset Nat} {s : State}
    {k : List Nat} (h : ∀ u, s.claimed k u = 0) (hsum : SumInv A s) :
    unclaimedStake s A k = winPool s k := by
  unfold unclaimedStake
  rw [Finset.filter_true_of_mem (fun u _ => h u)]
  by_cases ho : s.outcome k = OUTCOME_YES
  · rw [show winPool s k = s.yesPool k by simp [winPool, ho], (hsum.2 k).1]
    exact Finset.sum_congr rfl fun u _ => by simp [winStake, ho]
  · rw [show winPool s k = s.noPool k by simp [winPool, ho], (hsum.2 k).2]
    exact Finset.sum_congr rfl fun u _ => by simp [winStake, ho]

lemma div_mul_upper (x W : Nat) : x / W * W ≤ x :=
  Nat.div_mul_le_self x W

lemma div_mul_lower (x W : Nat) (hW : 0 < W) : x - (W - 1) ≤ x / W * W := by
  have h1 : x % W < W := Nat.mod_lt _ hW
  have h2 : W * (x / W) + x % W = x := Nat.div_add_mod x W
  have h3 : x / W * W = W * (x / W) := Nat.mul_comm _ _
  omega

lemma mul_sub_one_bound (a T W : Nat) (ha : 1 ≤ a) (hT : W - 1 ≤ T) :
    a * (T - (W - 1)) ≤ a * T - (W - 1) := by
  have hexp : a * (T - (W - 1)) + a * (W - 1) = a * T := by
    rw [← Nat.mul_add]
    congr 1
    omega
  have hY : (W - 1) ≤ a * (W - 1) := Nat.le_mul_of_pos_left _ (by omega)
  omega

/-- Effect of one transaction on market `k`'s claim ledger: either it pays
nothing and preserves the resolved-market ledger, or it resolves `k` leaving
the whole winning pool unclaimed, or it is a successful claim that pays one
winner's proportional share and removes that winner's stake from the
unclaimed total. -/
lemma claim_step_cases (s : State) (t : Tx) (k : List Nat) (A : Finset Nat)
    (hsendt : txSender t ∈ A) (hinv : Inv s) (hsum : SumInv A s) :
    (claimPayout s t k = 0
      ∧ ((step s t).status k = STATUS_RESOLVED ↔ s.status k = STATUS_RESOLVED)
      ∧ (s.status k = STATUS_RESOLVED →
          unclaimedStake (step s t) A k = unclaimedStake s A k
          ∧ winPool (step s t) k = winPool s k
          ∧ (step s t).yesPool k = s.yesPool k
          ∧ (step s t).noPool k = s.noPool k))
    ∨ (claimPayout s t k = 0
      ∧ s.status k ≠ STATUS_RESOLVED
      ∧ (step s t).status k = STATUS_RESOLVED
      ∧ unclaimedStake (step s t) A k = winPool (step s t) k)
    ∨ (∃ a, s.status k = STATUS_RESOLVED
      ∧ (step s t).status k = STATUS_RESOLVED
      ∧ 1 ≤ a
      ∧ winPool s k ≠ 0
      ∧ claimPayout s t k = a * (s.yesPool k + s.noPool k) / winPool s k
      ∧ unclaimedStake s A k = a + unclaimedStake (step s t) A k
      ∧ winPool (step s t) k = winPool s k
      ∧ (step s t).yesPool k = s.yesPool k
      ∧ (step s t).noPool k = s.noPool k) := by
  rcases happ : applyTx s t with _ | ⟨s1, r⟩
  · left
    have hstep : step s t = s := step_of_none happ
    refine ⟨?_, by rw [hstep], fun _ => by rw [hstep]; exact ⟨rfl, rfl, rfl, rfl⟩⟩
    cases t with
    | claim snd m =>
      have hnone : claimWinnings s snd m = none := by simpa [applyTx] using happ
      dsimp only [claimPayout]
      rw [hnone]
      split <;> rfl
    | create b snd q e o => rfl
    | bet b snd m oc a => rfl
    | resolve b snd m oc => rfl
  have hstep : step s t = s1 := step_of_some happ
  cases t with
  | create b snd q e o =>
    left
    simp only [applyTx] at happ
    obtain ⟨-, -, hcnt, -, hs1⟩ := createMarket_some happ
    have hM : MAX_MARKETS = 10000 := rfl
    have hfresh : s.status (toSubPointer (s.marketCount + 1)) = 0 :=
      hinv.fresh_zero _ (by omega) (by omega)
    refine ⟨rfl, ?_, ?_⟩
    · rw [hstep, hs1]
      by_cases hk : k = toSubPointer (s.marketCount + 1)
      · subst hk
        rw [hfresh]
        dsimp only
        rw [show upd s.status (toSubPointer (s.marketCount + 1)) STATUS_OPEN
            (toSubPointer (s.marketCount + 1)) = STATUS_OPEN by simp [upd]]
        constructor
        · intro hcontra; exact absurd hcontra (by decide)
        · intro hcontra; exact absurd hcontra (by decide)
      · dsimp only
        rw [show upd s.status (toSubPointer (s.marketCount + 1)) STATUS_OPEN k =
            s.status k by simp [upd, hk]]
    · intro hs2
      have hk : k ≠ toSubPointer (s.marketCount + 1) := by
        intro hkk
        rw [hkk, hfresh] at hs2
        exact absurd hs2 (by decide)
      rw [hstep, hs1]
      refine ⟨?_, ?_, by simp [upd, hk], by simp [upd, hk]⟩
      · refine unclaimedStake_congr (fun u => rfl) ?_
        exact winStake_congr (by simp [upd, hk]) (fun u => rfl) (fun u => rfl)
      · exact winPool_congr (by simp [upd, hk]) (by simp [upd, hk])
          (by simp [upd, hk])
  | bet b snd m oc a =>
    left
    simp only [applyTx] at happ
    obtain ⟨-, hst, -, -, hcases⟩ := placeBet_some happ
    refine ⟨rfl, ?_, ?_⟩
    · rcases hcases with ⟨-, -, -, hs1'⟩ | ⟨-, -, -, hs1'⟩ <;>
        rw [hstep, hs1']
    · intro hs2
      have hk : k ≠ toSubPointer m := by
        intro hkk
        rw [hkk, hst] at hs2
        exact absurd hs2 (by decide)
      rcases hcases with ⟨-, -, -, hs1'⟩ | ⟨-, -, -, hs1'⟩ <;> rw [hstep, hs1']
      · refine ⟨?_, ?_, by simp [upd, hk], rfl⟩
        · refine unclaimedStake_congr (fun u => rfl) ?_
          exact winStake_congr rfl (fun u => by simp [upd2, hk]) (fun u => rfl)
        · exact winPool_congr rfl (by simp [upd, hk]) rfl
      · refine ⟨?_, ?_, rfl, by simp [upd, hk]⟩
        · refine unclaimedStake_congr (fun u => rfl) ?_
          exact winStake_congr rfl (fun u => rfl) (fun u => by simp [upd2, hk])
        · exact winPool_congr rfl rfl (by simp [upd, hk])
  | resolve b snd m oc =>
    simp only [applyTx] at happ
    obtain ⟨-, hst, -, -, hs1⟩ := resolveMarket_some happ
    by_cases hk : k = toSubPointer m
    · right; left
      subst hk
      have hop : ∀ u, s.claimed (toSubPointer m) u = 0 :=
        hinv.open_unclaimed _ hst
      have hsum1 : SumInv A (step s (Tx.resolve b snd m oc)) :=
        sumInv_step _ hsendt hinv hsum
      refine ⟨rfl, by rw [hst]; decide, ?_, ?_⟩
      · rw [hstep, hs1]
        dsimp only
        simp [upd]
      · refine unclaimedStake_all_unclaimed ?_ hsum1
        intro u
        rw [hstep, hs1]
        exact hop u
    · left
      refine ⟨rfl, ?_, ?_⟩
      · rw [hstep, hs1]
        dsimp only
        rw [show upd s.status (toSubPointer m) STATUS_RESOLVED k = s.status k by
          simp [upd, fun h => hk h]]
      · intro hs2
        rw [hstep, hs1]
        refine ⟨?_, ?_, rfl, rfl⟩
        · refine unclaimedStake_congr (fun u => rfl) ?_
          exact winStake_congr (by simp [upd, fun h => hk h]) (fun u => rfl)
            (fun u => rfl)
        · exact winPool_congr (by simp [upd, fun h => hk h]) rfl rfl
  | claim snd m =>
    simp only [applyTx] at happ
    obtain ⟨hst, hcl, hstake, hwp, hov, hr, hs1⟩ := claimWinnings_some happ
    by_cases hk : toSubPointer m = k
    · right; right
      refine ⟨winStake s k snd, by rw [← hk]; exact hst, ?_, ?_, ?_, ?_, ?_,
        ?_, ?_, ?_⟩
      · rw [hstep, hs1, ← hk]
        exact hst
      · rw [← hk]
        omega
      · rw [← hk]
        exact hwp
      · dsimp only [claimPayout]
        rw [if_pos hk, happ, hr, ← hk, win_add_lose]
      · rw [hstep, hs1, ← hk]
        exact unclaimedStake_claim A s (toSubPointer m) snd hsendt hcl
      · rw [hstep, hs1]
        exact winPool_congr rfl rfl rfl
      · rw [hstep, hs1]
      · rw [hstep, hs1]
    · left
      refine ⟨?_, by rw [hstep, hs1], ?_⟩
      · dsimp only [claimPayout]
        rw [if_neg hk]
      · intro hs2
        rw [hstep, hs1]
        refine ⟨?_, winPool_congr rfl rfl rfl, rfl, rfl⟩
        refine unclaimedStake_congr ?_ (fun u => rfl)
        intro u
        dsimp only [upd2]
        rw [if_neg (fun h => hk h.symm)]

lemma conservation_aux (k : List Nat) (txs : List Tx) :
    ∀ (s : State) (A : Finset Nat),
      (∀ t ∈ txs, txSender t ∈ A) → Inv s → SumInv A s →
      ((run s txs).status k = STATUS_RESOLVED →
        totalPaid s txs k * winPool (run s txs) k ≤
          ((if s.status k = STATUS_RESOLVED then unclaimedStake s A k
              else winPool (run s txs) k) - unclaimedStake (run s txs) A k) *
            ((run s txs).yesPool k + (run s txs).noPool k)
        ∧ ((if s.status k = STATUS_RESOLVED then unclaimedStake s A k
              else winPool (run s txs) k) - unclaimedStake (run s txs) A k) *
            (((run s txs).yesPool k + (run s txs).noPool k) -
              (winPool (run s txs) k - 1)) ≤
            totalPaid s txs k * winPool (run s txs) k
        ∧ unclaimedStake (run s txs) A k ≤
            (if s.status k = STATUS_RESOLVED then unclaimedStake s A k
              else winPool (run s txs) k)
        ∧ (winPool (run s txs) k = 0 → totalPaid s txs k = 0))
      ∧ ((run s txs).status k ≠ STATUS_RESOLVED → totalPaid s txs k = 0) := by
  induction txs with
  | nil =>
    intro s A hsend hinv hsum
    constructor
    · intro hres
      have hrun : run s [] = s := rfl
      rw [hrun, if_pos (by rw [← hrun]; exact hres)]
      refine ⟨?_, ?_, le_refl _, fun _ => rfl⟩
      · simp [totalPaid]
      · simp [totalPaid]
    · intro _
      rfl
  | cons t rest ih =>
    intro s A hsend hinv hsum
    have hsendt : txSender t ∈ A := hsend t (List.mem_cons_self t rest)
    have hsendr : ∀ t' ∈ rest, txSender t' ∈ A :=
      fun t' ht' => hsend t' (List.mem_cons_of_mem t ht')
    have hinv' := inv_step hinv t
    have hsum' := sumInv_step t hsendt hinv hsum
    have ihr := ih (step s t) A hsendr hinv' hsum'
    have hrun : run s (t :: rest) = run (step s t) rest := rfl
    have hpaid : totalPaid s (t :: rest) k =
        claimPayout s t k + totalPaid (step s t) rest k := rfl
    rw [hrun, hpaid]
    rcases claim_step_cases s t k A hsendt hinv hsum with
      ⟨hp0, hiff, hcond⟩ | ⟨hp0, hns, hres', hUW⟩ |
      ⟨a, hs2, hres', ha, hWne, hpa, hU, hW, hY, hN⟩
    · rw [hp0, Nat.zero_add]
      constructor
      · intro hres
        by_cases hs2 : s.status k = STATUS_RESOLVED
        · rw [if_pos hs2]
          obtain ⟨hU, -, -, -⟩ := hcond hs2
          have hthis := ihr.1 hres
          rw [if_pos (hiff.mpr hs2), hU] at hthis
          exact hthis
        · rw [if_neg hs2]
          have hthis := ihr.1 hres
          rw [if_neg (fun h => hs2 (hiff.mp h))] at hthis
          exact hthis
      · intro hne
        exact ihr.2 hne
    · rw [hp0, Nat.zero_add]
      have hfrozen := resolved_frozen_run hinv' rest hres'
      have hWf : winPool (run (step s t) rest) k = winPool (step s t) k :=
        winPool_congr hfrozen.2.1 hfrozen.2.2.1 hfrozen.2.2.2.1
      constructor
      · intro hres
        rw [if_neg hns]
        have hthis := ihr.1 hres
        rw [if_pos hres', hUW, ← hWf] at hthis
        exact hthis
      · intro hne
        exact absurd hfrozen.1 hne
    · have hfz := resolved_frozen_run hinv (t :: rest) hs2
      rw [hrun] at hfz
      have hWf : winPool (run (step s t) rest) k = winPool s k :=
        winPool_congr hfz.2.1 hfz.2.2.1 hfz.2.2.2.1
      have hTf : (run (step s t) rest).yesPool k + (run (step s t) rest).noPool k
          = s.yesPool k + s.noPool k := by rw [hfz.2.2.1, hfz.2.2.2.1]
      constructor
      · intro hres
        rw [if_pos hs2, hpa, hU]
        obtain ⟨ih1, ih2, ih3, -⟩ := ihr.1 hres
        rw [if_pos hres'] at ih1 ih2 ih3
        rw [hWf, hTf] at ih1 ih2 ⊢
        set W := winPool s k
        set T := s.yesPool k + s.noPool k
        set P := totalPaid (step s t) rest k
        set Uf := unclaimedStake (run (step s t) rest) A k
        set U' := unclaimedStake (step s t) A k
        have hWpos : 0 < W := Nat.pos_of_ne_zero hWne
        have hWT : W ≤ T := by
          have := win_add_lose s k
          omega
        have hsplit : a + U' - Uf = a + (U' - Uf) := by omega
        refine ⟨?_, ?_, by omega, fun h0 => absurd h0 hWne⟩
        · calc (a * T / W + P) * W = a * T / W * W + P * W := by ring
            _ ≤ a * T + (U' - Uf) * T :=
              Nat.add_le_add (div_mul_upper (a * T) W) ih1
            _ = (a + (U' - Uf)) * T := by ring
            _ = (a + U' - Uf) * T := by rw [hsplit]
        · calc (a + U' - Uf) * (T - (W - 1))
              = (a + (U' - Uf)) * (T - (W - 1)) := by rw [hsplit]
            _ = a * (T - (W - 1)) + (U' - Uf) * (T - (W - 1)) := by ring
            _ ≤ (a * T - (W - 1)) + P * W :=
              Nat.add_le_add (mul_sub_one_bound a T W ha (by omega)) ih2
            _ ≤ a * T / W * W + P * W :=
              Nat.add_le_add_right (div_mul_lower (a * T) W hWpos) _
            _ = (a * T / W + P) * W := by ring
      · intro hne
        exact absurd hfz.1 hne

/-- Claim C2 (amended): for every reachable state and every resolved market,
the sum of payouts returned by all successful `claimWinnings` calls for that
market is at most `yesPool + noPool`; and, provided the winning pool is
nonzero, once every winner has claimed, the aggregate shortfall
(`yesPool + noPool` minus the total paid) is strictly less than
`winningPool`.  The proof maintains the invariant that the winning pool
equals the sum of all users' winning-side bet accumulators, because
`placeBet` increments the pool and the bettor's accumulator by the same
amount. -/
theorem conservation (d : Nat) (txs : List Tx) (k : List Nat)
    (hres : (run (initState d) txs).status k = STATUS_RESOLVED) :
    totalPaid (initState d) txs k ≤
      (run (initState d) txs).yesPool k + (run (initState d) txs).noPool k
    ∧ (0 < winPool (run (initState d) txs) k →
        (∀ u, winStake (run (initState d) txs) k u ≠ 0 →
          (run (initState d) txs).claimed k u ≠ 0) →
        (run (initState d) txs).yesPool k + (run (initState d) txs).noPool k -
          totalPaid (initState d) txs k <
          winPool (run (initState d) txs) k) := by
  have hsend : ∀ t ∈ txs, txSender t ∈ (txs.map txSender).toFinset :=
    fun t ht => List.mem_toFinset.mpr (List.mem_map_of_mem _ ht)
  have hnres : ¬((initState d).status k = STATUS_RESOLVED) := by
    intro h
    simp [initState, STATUS_RESOLVED] at h
  obtain ⟨h1, h2, h3, h4⟩ :=
    (conservation_aux k txs (initState d) (txs.map txSender).toFinset hsend
      (inv_init d) (sumInv_init _ d)).1 hres
  rw [if_neg hnres] at h1 h2 h3
  constructor
  · by_cases hW0 : winPool (run (initState d) txs) k = 0
    · rw [h4 hW0]
      exact Nat.zero_le _
    · have hWpos : 0 < winPool (run (initState d) txs) k :=
        Nat.pos_of_ne_zero hW0
      have hle : (winPool (run (initState d) txs) k -
            unclaimedStake (run (initState d) txs) (txs.map txSender).toFinset k) *
            ((run (initState d) txs).yesPool k + (run (initState d) txs).noPool k) ≤
          ((run (initState d) txs).yesPool k + (run (initState d) txs).noPool k) *
            winPool (run (initState d) txs) k := by
        rw [Nat.mul_comm]
        exact Nat.mul_le_mul_left _ (by omega)
      exact Nat.le_of_mul_le_mul_right (le_trans h1 hle) hWpos
  · intro hWpos hall
    have hUf0 : unclaimedStake (run (initState d) txs)
        (txs.map txSender).toFinset k = 0 := by
      unfold unclaimedStake
      apply Finset.sum_eq_zero
      intro u hu
      obtain ⟨-, hcl⟩ := Finset.mem_filter.mp hu
      by_contra hsne
      exact (hall u hsne) hcl
    rw [hUf0, Nat.sub_zero] at h2
    have hTP : (run (initState d) txs).yesPool k +
        (run (initState d) txs).noPool k -
        (winPool (run (initState d) txs) k - 1) ≤
        totalPaid (initState d) txs k := by
      rw [Nat.mul_comm (totalPaid (initState d) txs k)
        (winPool (run (initState d) txs) k)] at h2
      exact Nat.le_of_mul_le_mul_left h2 hWpos
    omega

/-- The trace refuting the unamended C2: market 1 is created, 5 sats are bet
on NO only, and the oracle resolves YES, leaving an empty winning pool. -/
def noWinnerTxs : List Tx :=
  [Tx.create 1 9 1 2 7, Tx.bet 1 6 1 2 5, Tx.resolve 2 7 1 1]

/-- The state reached by `noWinnerTxs`. -/
def noWinnerState : State := run (initState 0) noWinnerTxs

/-- Counterexample to C2 as stated: in `noWinnerState` market 1 is RESOLVED,
every winner has (vacuously) claimed — there are no winning stakes — yet the
aggregate shortfall equals the losing pool, 5, which is not strictly less
than the winning pool, 0. -/
theorem conservation_counterexample :
    noWinnerState.status (toSubPointer 1) = STATUS_RESOLVED
    ∧ winPool noWinnerState (toSubPointer 1) = 0
    ∧ (∀ u, winStake noWinnerState (toSubPointer 1) u ≠ 0 →
        noWinnerState.claimed (toSubPointer 1) u ≠ 0)
    ∧ ¬(noWinnerState.yesPool (toSubPointer 1) +
          noWinnerState.noPool (toSubPointer 1) -
          totalPaid (initState 0) noWinnerTxs (toSubPointer 1) <
        winPool noWinnerState (toSubPointer 1)) := by
  refine ⟨by decide, by decide, ?_, by decide⟩
  intro u hw
  exfalso
  apply hw
  have houtc : noWinnerState.outcome (toSubPointer 1) = OUTCOME_YES := by decide
  unfold winStake
  rw [if_pos houtc]
  rfl

/-- The Scenario-1 trace followed by the single winner's claim. -/
def claimedTxs : List Tx := sampleTxs ++ [Tx.claim 8 1]

/-- Witness for C2 (amended) on the Scenario-1 trace with the winner's claim:
4000 sats were paid out of a 4000-sat combined pool, and the shortfall 0 is
strictly below the 3000-sat winning pool. -/
theorem conservation_witness :
    totalPaid (initState 0) claimedTxs (toSubPointer 1) ≤
      (run (initState 0) claimedTxs).yesPool (toSubPointer 1) +
      (run (initState 0) claimedTxs).noPool (toSubPointer 1)
    ∧ (run (initState 0) claimedTxs).yesPool (toSubPointer 1) +
        (run (initState 0) claimedTxs).noPool (toSubPointer 1) -
        totalPaid (initState 0) claimedTxs (toSubPointer 1) <
        winPool (run (initState 0) claimedTxs) (toSubPointer 1) := by
  have h := conservation 0 claimedTxs (toSubPointer 1) (by decide)
  refine ⟨h.1, h.2 (by decide) ?_⟩
  intro u hw
  by_cases hu : u = 8
  · subst hu
    decide
  · exfalso
    apply hw
    have houtc : (run (initState 0) claimedTxs).outcome (toSubPointer 1) =
        OUTCOME_YES := by decide
    unfold winStake
    rw [if_pos houtc]
    have hfy : (run (initState 0) claimedTxs).yesBets =
        upd2 (fun _ _ => 0) (toSubPointer 1) 8 (0 + 3000) := rfl
    rw [hfy]
    simp [upd2, hu]

end PredictionMarket
